import Mathlib

/-!
Verification of the HEIC-to-JPEG batch converter (`heic_converter.py`).

The development shallowly embeds the converter: filesystem paths are lists of
path components, the filesystem is an association list from paths to entries
(directories or files with contents), the image codec is an oracle record of
pure fallible functions, and the thread-pool dispatch of `executor.map` is a
left-to-right traversal collecting one outcome per submitted file (the order
in which `ThreadPoolExecutor.map` yields results).
-/

set_option autoImplicit false

namespace HeicC

/-! ### Characters and file names -/

/-- The four letter checks of the glob character classes in the pattern
the enumerator uses: each of the letters of the source extension may appear
in either letter case. -/
def isHch (c : Char) : Bool := c = 'h' || c = 'H'

def isEch (c : Char) : Bool := c = 'e' || c = 'E'

def isIch (c : Char) : Bool := c = 'i' || c = 'I'

def isCch (c : Char) : Bool := c = 'c' || c = 'C'

/-- Match of the glob pattern used at `rglob` ('star', a dot, then the four
letter classes) against a file name given as its reversed character list:
the name must end in a dot followed by the source extension in any letter
case, with an arbitrary (possibly empty) remainder before the dot. -/
def heicGlobRev : List Char → Bool
  | c :: i :: e :: h :: d :: _ =>
      d = '.' && isHch h && isEch e && isIch i && isCch c
  | _ => false

/-- Whether a file name matches the `rglob` pattern of the enumerator. -/
def heicGlobMatch (n : String) : Bool := heicGlobRev n.data.reverse

/-- Whether a reversed character list ends (in the unreversed order) with
the literal target extension `.jpg`. -/
def jpgEndRev : List Char → Bool
  | 'g' :: 'p' :: 'j' :: '.' :: _ => true
  | _ => false

/-- Whether a file name ends with the literal target extension `.jpg`. -/
def strEndsJpg (n : String) : Bool := jpgEndRev n.data.reverse

/-- Distance from the head of a character list to its first dot
(the length of the list when no dot occurs). Applied to a reversed name it
gives the number of characters after the last dot. -/
def dotDist : List Char → Nat
  | [] => 0
  | c :: r => if c = '.' then 0 else dotDist r + 1

/-- `Path.stem` of Python's pathlib: the file name with its last extension
removed, where a suffix only counts as an extension when its dot is neither
the first nor the last character of the name. -/
def pystem (n : String) : String :=
  let cs := n.data
  let k := dotDist cs.reverse
  if 0 < k && k + 1 < cs.length then String.mk (cs.take (cs.length - (k + 1))) else n

/-- The characters after the last dot of a reversed name: `none` when the
name has no dot, otherwise the extension in reading order. -/
def takeUntilDotRev : List Char → Option (List Char)
  | [] => none
  | c :: rest => if c = '.' then some [] else (takeUntilDotRev rest).map (fun l => l ++ [c])

/-- Spec-side reading of "file extension equals the 4-letter source extension
under any mixture of letter case": the four extension characters are the
letters h, e, i, c, each in either case. -/
def heicLetters : List Char → Bool
  | [h, e, i, c] => isHch h && isEch e && isIch i && isCch c
  | _ => false

/-- Spec-side extension test: the segment of the file name after its last dot
equals the source extension up to letter case. -/
def extIsHeic (n : String) : Bool :=
  match takeUntilDotRev n.data.reverse with
  | some l => heicLetters l
  | none => false

/-! ### Paths and the filesystem -/

/-- A filesystem path, as its list of components from the root. -/
abbrev FsPath := List String

/-- The final component of a path (the file name). -/
def fname (p : FsPath) : String := p.getLastD ""

/-- Whether a file name (by its final component) ends in `.jpg`. -/
def jpgEnd (p : FsPath) : Bool := strEndsJpg (fname p)

/-- Boolean prefix test on paths. -/
def isPre : FsPath → FsPath → Bool
  | [], _ => true
  | _ :: _, [] => false
  | a :: as, b :: bs => if a = b then isPre as bs else false

/-- The nonempty leading portions of a path, shortest first: the chain of
directories `mkdir(parents=True)` visits, ending with the path itself. -/
def ancestors (p : FsPath) : List FsPath :=
  (List.range p.length).map (fun k => p.take (k + 1))

/-- A filesystem entry: a directory, or a file with its byte contents. -/
inductive Entry
  | dir : Entry
  | file (contents : String) : Entry
deriving DecidableEq, Repr

/-- The filesystem: an association list from paths to entries. The filesystem
root `[]` is implicitly always a directory. -/
abbrev FS := List (FsPath × Entry)

/-- Look up the entry stored at a path (first match). -/
def lookupE : FS → FsPath → Option Entry
  | [], _ => none
  | pe :: rest, p => if pe.1 = p then some pe.2 else lookupE rest p

/-- Store an entry at a path: replace in place when the path is present,
otherwise add the pair at the front. -/
def setEntry (fs : FS) (p : FsPath) (e : Entry) : FS :=
  if (lookupE fs p).isSome then
    fs.map (fun pe => if pe.1 = p then (p, e) else pe)
  else (p, e) :: fs

/-- Whether a path is a directory (the root always is). -/
def isDirB (fs : FS) (p : FsPath) : Bool :=
  match p with
  | [] => true
  | _ => lookupE fs p = some Entry.dir

/-- Whether a path is a regular file. -/
def isFileB (fs : FS) (p : FsPath) : Bool :=
  match lookupE fs p with
  | some (Entry.file _) => true
  | _ => false

/-- The key list of the filesystem. -/
def keysOf (fs : FS) : List FsPath := fs.map (·.1)

/-! ### Filesystem operations -/

/-- One step of `mkdir(parents=True, exist_ok=True)`: an already failed state
propagates; an existing directory is accepted; an existing file is the
uncaught `NotADirectoryError`/`FileExistsError`; a missing path is created. -/
def mkdirStep (acc : FS × Except String Unit) (q : FsPath) : FS × Except String Unit :=
  match acc with
  | (fs, .error e) => (fs, .error e)
  | (fs, .ok _) =>
    match lookupE fs q with
    | some Entry.dir => (fs, .ok ())
    | some (Entry.file _) => (fs, .error "NotADirectoryError")
    | none => (setEntry fs q Entry.dir, .ok ())

/-- `path.mkdir(parents=True, exist_ok=True)`: create every missing ancestor,
idempotently accepting those that already exist as directories; partial
creations persist when a non-directory is hit. -/
def mkdirP (fs : FS) (p : FsPath) : FS × Except String Unit :=
  (ancestors p).foldl mkdirStep (fs, .ok ())

/-- Writing encoded bytes to a path (the `save` call's filesystem effect):
fails on an existing directory at the path or a missing parent directory,
otherwise silently replaces any file already there. -/
def writeFile (fs : FS) (p : FsPath) (c : String) : FS × Except String Unit :=
  if isDirB fs p then (fs, .error "IsADirectoryError")
  else if isDirB fs p.dropLast then (setEntry fs p (Entry.file c), .ok ())
  else (fs, .error "FileNotFoundError")

/-- Reading a source file (the filesystem side of `Image.open`). -/
def readFileE (fs : FS) (p : FsPath) : Except String String :=
  match lookupE fs p with
  | some (Entry.file c) => .ok c
  | some Entry.dir => .error "IsADirectoryError"
  | none => .error "FileNotFoundError"

/-! ### The image codec oracle -/

/-- A decoded image: its color mode and an abstract pixel payload. -/
structure Image where
  mode : String
  dat : String
deriving DecidableEq, Repr

/-- The external codec collaborator: decoding HEIC bytes, the `convert('RGB')`
color normalization, and the fixed-policy JPEG encode
(`quality=100, subsampling=0, optimize=True`). Each step may fail with a
message, standing for the exceptions the library may raise. -/
structure Codec where
  decode : String → Except String Image
  toRGB : Image → Except String Image
  encodeJPEG : Image → Except String String

/-! ### The converter -/

/-- `PurePath.relative_to`: drop the base when it is a prefix, otherwise the
`ValueError` pathlib raises. -/
def relative_to (p root : FsPath) : Except String FsPath :=
  if isPre root p then .ok (p.drop root.length) else .error "ValueError"

/-- The body of `convert_single_heic`'s `try` block: compute the relative
parent, create the target directory chain, open and decode the source,
normalize to RGB, encode, and write `stem + ".jpg"` into the target
directory. Returns the filesystem (with any partial effects kept on failure)
and either the written path or the first raised error. -/
def convertBody (cd : Codec) (heic_file input_dir output_dir : FsPath) (fs : FS) :
    FS × Except String FsPath :=
  match relative_to heic_file input_dir with
  | .error e => (fs, .error e)
  | .ok rel =>
    let target_dir := output_dir ++ rel.dropLast
    match mkdirP fs target_dir with
    | (fs₁, .error e) => (fs₁, .error e)
    | (fs₁, .ok _) =>
      match readFileE fs₁ heic_file with
      | .error e => (fs₁, .error e)
      | .ok bytes =>
        match cd.decode bytes with
        | .error e => (fs₁, .error e)
        | .ok img =>
          let jpeg_path := target_dir ++ [pystem (fname heic_file) ++ ".jpg"]
          match cd.toRGB img with
          | .error e => (fs₁, .error e)
          | .ok rgb =>
            match cd.encodeJPEG rgb with
            | .error e => (fs₁, .error e)
            | .ok outBytes =>
              match writeFile fs₁ jpeg_path outBytes with
              | (fs₂, .error e) => (fs₂, .error e)
              | (fs₂, .ok _) => (fs₂, .ok jpeg_path)

/-- `convert_single_heic`: run the body and catch every failure at the
function boundary, producing the `(success, file name)` outcome the code
returns together with the console line it prints. -/
def convert_single_heic (cd : Codec) (heic_file input_dir output_dir : FsPath) (fs : FS) :
    FS × (Bool × String) × List String :=
  match convertBody cd heic_file input_dir output_dir fs with
  | (fs', .ok _) => (fs', (true, fname heic_file), ["Converted: " ++ fname heic_file])
  | (fs', .error e) =>
      (fs', (false, fname heic_file), ["Error converting " ++ fname heic_file ++ ": " ++ e])

/-- `min(32, os.cpu_count() or 4)`: Python's `or` replaces a falsy core count
(absent, or zero) with the fallback 4. -/
def pyOrNat : Option Nat → Nat → Nat
  | some n, d => if n = 0 then d else n
  | none, d => d

/-- The worker-pool bound of the dispatcher. -/
def max_workers (cpu : Option Nat) : Nat := min 32 (pyOrNat cpu 4)

/-- Sequential collection of one conversion per enumerated file, in
submission order, threading the filesystem and accumulating the outcomes and
the list of paths actually written. -/
def runAll (cd : Codec) (input_dir output_dir : FsPath) :
    FS → List FsPath → FS × List (Bool × String) × List FsPath
  | fs, [] => (fs, [], [])
  | fs, f :: rest =>
    let r := convertBody cd f input_dir output_dir fs
    let outcome := (convert_single_heic cd f input_dir output_dir fs).2.1
    let w : List FsPath := match r.2 with | .ok p => [p] | .error _ => []
    let rec' := runAll cd input_dir output_dir r.1 rest
    (rec'.1, outcome :: rec'.2.1, w ++ rec'.2.2)

/-- The work dispatcher: `executor.map` over the enumerated files with a
bounded pool. The pool size bounds concurrency only; `map` collects exactly
one result per input in submission order, so the collected results do not
depend on it. -/
def dispatch (mw : Nat) (cd : Codec) (input_dir output_dir : FsPath) (fs : FS)
    (files : List FsPath) : FS × List (Bool × String) × List FsPath :=
  let _ := mw
  runAll cd input_dir output_dir fs files

/-- `input_dir.rglob('*.[Hh][Ee][Ii][Cc]')`: every proper descendant entry of
the root — file or directory alike — whose name matches the pattern, in
traversal order. -/
def enumerate (fs : FS) (root : FsPath) : List FsPath :=
  fs.filterMap (fun pe =>
    if isPre root pe.1 && !(decide (pe.1 = root)) && heicGlobMatch (fname pe.1)
    then some pe.1 else none)

/-- The observable result of a batch run: the fatal missing-input report, the
empty-result report, or a completed run with its success and error counts. -/
inductive BatchResult
  | notFound : BatchResult
  | empty : BatchResult
  | completed (converted errors : Nat) : BatchResult
deriving DecidableEq, Repr

/-- What a batch run leaves behind: the filesystem, the result variant, the
collected outcomes, and the output paths written. -/
structure BatchOut where
  fs : FS
  result : BatchResult
  outcomes : List (Bool × String)
  written : List FsPath
deriving DecidableEq, Repr

/-- `convert_heic_to_jpeg`: validate the input path with `exists()`, create
the output directory inside it (an uncaught exception when that fails),
enumerate, and either report the empty result or dispatch every file and
aggregate the outcome counts. -/
def convert_heic_to_jpeg (cd : Codec) (cpu : Option Nat) (fs : FS) (input_path : FsPath)
    (output_folder : String) : Except String BatchOut :=
  if (lookupE fs input_path).isSome then
    let output_dir := input_path ++ [output_folder]
    match mkdirP fs output_dir with
    | (_, .error e) => .error e
    | (fs₁, .ok _) =>
      let heic_files := enumerate fs₁ input_path
      if heic_files.isEmpty then .ok ⟨fs₁, .empty, [], []⟩
      else
        let r := dispatch (max_workers cpu) cd input_path output_dir fs₁ heic_files
        let converted := (r.2.1.filter (fun ob => ob.1)).length
        .ok ⟨r.1, .completed converted (r.2.1.length - converted), r.2.1, r.2.2⟩
  else .ok ⟨fs, .notFound, [], []⟩

/-- Spec-side enumeration (the claim's words): exactly the regular files
under the root whose extension is the source extension in any letter case. -/
def matchingFiles (fs : FS) (root : FsPath) : List FsPath :=
  fs.filterMap (fun pe =>
    match pe.2 with
    | Entry.file _ =>
        if isPre root pe.1 && !(decide (pe.1 = root)) && extIsHeic (fname pe.1)
        then some pe.1 else none
    | Entry.dir => none)

end HeicC

namespace HeicC

/-! ### Basic lemmas about the dispatcher -/

theorem runAll_cons (cd : Codec) (i o : FsPath) (fs : FS) (f : FsPath) (rest : List FsPath) :
    runAll cd i o fs (f :: rest) =
      ((runAll cd i o (convertBody cd f i o fs).1 rest).1,
       (convert_single_heic cd f i o fs).2.1 :: (runAll cd i o (convertBody cd f i o fs).1 rest).2.1,
       (match (convertBody cd f i o fs).2 with | .ok p => [p] | .error _ => []) ++
         (runAll cd i o (convertBody cd f i o fs).1 rest).2.2) := by
  simp [runAll]

theorem runAll_length (cd : Codec) (i o : FsPath) (fs : FS) (files : List FsPath) :
    ((runAll cd i o fs files).2.1).length = files.length := by
  induction files generalizing fs with
  | nil => simp [runAll]
  | cons f rest ih => rw [runAll_cons]; simp [ih]

end HeicC

namespace HeicC

/-- C1: the dispatcher collects exactly one outcome per enumerated source
file submitted to it — the outcome list has the same length as the file
list, none dropped, none duplicated — for every worker-pool size. -/
theorem c1_one_outcome_per_file (mw : Nat) (cd : Codec) (i o : FsPath) (fs : FS)
    (files : List FsPath) :
    ((dispatch mw cd i o fs files).2.1).length = files.length := by
  simpa [dispatch] using runAll_length cd i o fs files

/-- C2: `convert_single_heic` never propagates a failure to its caller: for
every codec behavior and filesystem, when the conversion body raises any
error the function returns the failed outcome for the file's display name,
and otherwise the successful outcome for it. -/
theorem c2_no_exception_escapes (cd : Codec) (f i o : FsPath) (fs : FS) :
    (∃ e, (convertBody cd f i o fs).2 = .error e ∧
        (convert_single_heic cd f i o fs).2.1 = (false, fname f)) ∨
    (∃ p, (convertBody cd f i o fs).2 = .ok p ∧
        (convert_single_heic cd f i o fs).2.1 = (true, fname f)) := by
  unfold convert_single_heic
  rcases h : convertBody cd f i o fs with ⟨fs', r⟩
  cases r with
  | ok p => exact Or.inr ⟨p, rfl, by simp [h]⟩
  | error e => exact Or.inl ⟨e, rfl, by simp [h]⟩

/-- C6: the worker-pool size is `min(32, cpu_count)` whenever the core count
is determined (hence positive), and the fallback `min(32, 4) = 4` when it is
not. -/
theorem c6_pool_size : (∀ n : Nat, 0 < n → max_workers (some n) = min 32 n) ∧
    max_workers none = 4 := by
  constructor
  · intro n hn
    simp [max_workers, pyOrNat, Nat.pos_iff_ne_zero.mp hn]
  · simp [max_workers, pyOrNat]

/-- Witness for C6 at a determined core count of 8. -/
theorem c6_pool_size_witness : 0 < 8 ∧ max_workers (some 8) = min 32 8 :=
  ⟨by decide, c6_pool_size.1 8 (by decide)⟩

/-- C10: the collected outcome sequence follows the enumeration order: the
k-th collected outcome is the outcome of converting the k-th enumerated file
(in the filesystem state the earlier conversions left behind). -/
theorem c10_outcomes_in_submission_order (cd : Codec) (i o : FsPath) (fs : FS)
    (files : List FsPath) (k : Nat) :
    ((runAll cd i o fs files).2.1)[k]? =
      (files[k]?).map
        (fun f => (convert_single_heic cd f i o ((runAll cd i o fs (files.take k)).1)).2.1) := by
  induction files generalizing fs k with
  | nil => simp [runAll]
  | cons f rest ih =>
    cases k with
    | zero => simp [runAll]
    | succ k => rw [runAll_cons]; simpa [runAll] using ih (convertBody cd f i o fs).1 k

end HeicC

namespace HeicC

/-! ### Association-list lemmas -/

theorem lookup_map_set (p : FsPath) (e : Entry) :
    ∀ fs : FS, (lookupE fs p).isSome →
      lookupE (fs.map (fun pe => if pe.1 = p then (p, e) else pe)) p = some e
  | [], h => by simp [lookupE] at h
  | pe :: rest, h => by
    by_cases hp : pe.1 = p
    · simp [lookupE, hp]
    · have h' : (lookupE rest p).isSome := by simpa [lookupE, hp] using h
      simpa [lookupE, hp] using lookup_map_set p e rest h'

theorem lookup_set_self (fs : FS) (p : FsPath) (e : Entry) :
    lookupE (setEntry fs p e) p = some e := by
  unfold setEntry
  by_cases h : (lookupE fs p).isSome
  · simpa [h] using lookup_map_set p e fs h
  · simp [h, lookupE]

theorem lookup_map_set_ne (p q : FsPath) (e : Entry) (hq : q ≠ p) :
    ∀ fs : FS, lookupE (fs.map (fun pe => if pe.1 = p then (p, e) else pe)) q = lookupE fs q
  | [] => by simp [lookupE]
  | pe :: rest => by
    by_cases hp : pe.1 = p
    · have h1 : p ≠ q := fun h => hq h.symm
      have h2 : pe.1 ≠ q := by rw [hp]; exact h1
      simp [lookupE, hp, h1, h2, lookup_map_set_ne p q e hq rest]
    · by_cases hq2 : pe.1 = q
      · simp [lookupE, hp, hq2, hq]
      · simp [lookupE, hp, hq2, lookup_map_set_ne p q e hq rest]

theorem lookup_set_ne (fs : FS) (p q : FsPath) (e : Entry) (hq : q ≠ p) :
    lookupE (setEntry fs p e) q = lookupE fs q := by
  unfold setEntry
  by_cases h : (lookupE fs p).isSome
  · simp [h, lookup_map_set_ne p q e hq fs]
  · have h1 : p ≠ q := fun h' => hq h'.symm
    simp [h, lookupE, h1]

theorem keys_map_set (p : FsPath) (e : Entry) :
    ∀ fs : FS, keysOf (fs.map (fun pe => if pe.1 = p then (p, e) else pe)) = keysOf fs
  | [] => rfl
  | pe :: rest => by
    have ih := keys_map_set p e rest
    by_cases hp : pe.1 = p
    · simp only [keysOf, List.map_cons] at ih ⊢
      simp [hp, ih]
    · simp only [keysOf, List.map_cons] at ih ⊢
      simp [hp, ih]

theorem keys_set_of_isSome (fs : FS) (p : FsPath) (e : Entry) (h : (lookupE fs p).isSome) :
    keysOf (setEntry fs p e) = keysOf fs := by
  simp [setEntry, h, keys_map_set]

theorem keys_set_of_none (fs : FS) (p : FsPath) (e : Entry) (h : lookupE fs p = none) :
    keysOf (setEntry fs p e) = p :: keysOf fs := by
  simp [setEntry, h, keysOf]

theorem mem_keys_iff (p : FsPath) :
    ∀ fs : FS, p ∈ keysOf fs ↔ (lookupE fs p).isSome
  | [] => by simp [keysOf, lookupE]
  | pe :: rest => by
    have ih := mem_keys_iff p rest
    unfold keysOf at ih ⊢
    simp only [List.map_cons, List.mem_cons, ih, lookupE]
    by_cases hp : pe.1 = p
    · simp [hp]
    · have hne : p ≠ pe.1 := fun h => hp h.symm
      simp [hp, hne]

/-! ### Persistence of filesystem facts across operations

Once a path is a directory it remains one; once a path is a file it remains
one, and its contents can only change when its name ends in `.jpg` (the only
paths the converter ever writes); keys are only added, never removed; and a
path absent before an operation can only have become a file when its name
ends in `.jpg`. These facts drive the idempotence argument. -/

def Persist (a b : FS) : Prop :=
  (∀ p, lookupE a p = some Entry.dir → lookupE b p = some Entry.dir) ∧
  (∀ p c, lookupE a p = some (Entry.file c) →
    ∃ c', lookupE b p = some (Entry.file c') ∧ (jpgEnd p = false → c' = c))

def Evol (a b : FS) : Prop :=
  Persist a b ∧
  (∃ pre, keysOf b = pre ++ keysOf a ∧ ∀ q ∈ pre, lookupE a q = none) ∧
  (∀ p c, lookupE a p = none → lookupE b p = some (Entry.file c) → jpgEnd p = true)

theorem persist_refl (a : FS) : Persist a a :=
  ⟨fun _ h => h, fun _ c h => ⟨c, h, fun _ => rfl⟩⟩

theorem persist_trans {a b c : FS} (h1 : Persist a b) (h2 : Persist b c) : Persist a c := by
  refine ⟨fun p h => h2.1 p (h1.1 p h), fun p cc h => ?_⟩
  obtain ⟨c1, hb, hc1⟩ := h1.2 p cc h
  obtain ⟨c2, hcc, hc2⟩ := h2.2 p c1 hb
  exact ⟨c2, hcc, fun hj => (hc2 hj).trans (hc1 hj)⟩

theorem persist_isSome {a b : FS} (h : Persist a b) (p : FsPath)
    (hs : (lookupE a p).isSome) : (lookupE b p).isSome := by
  rcases he : lookupE a p with _ | e
  · rw [he] at hs; simp at hs
  · cases e with
    | dir => simp [h.1 p he]
    | file c => obtain ⟨c', hb, _⟩ := h.2 p c he; simp [hb]

theorem evol_refl (a : FS) : Evol a a :=
  ⟨persist_refl a, ⟨[], rfl, by simp⟩, fun p c h1 h2 => by rw [h1] at h2; cases h2⟩

theorem evol_trans {a b c : FS} (h1 : Evol a b) (h2 : Evol b c) : Evol a c := by
  obtain ⟨hp1, ⟨pre1, hk1, hn1⟩, hj1⟩ := h1
  obtain ⟨hp2, ⟨pre2, hk2, hn2⟩, hj2⟩ := h2
  refine ⟨persist_trans hp1 hp2, ⟨pre2 ++ pre1, by simp [hk2, hk1], ?_⟩, ?_⟩
  · intro q hq
    rcases List.mem_append.mp hq with hq | hq
    · rcases he : lookupE a q with _ | e
      · rfl
      · exfalso
        have : (lookupE b q).isSome := persist_isSome hp1 q (by simp [he])
        rw [hn2 q hq] at this; simp at this
    · exact hn1 q hq
  · intro p cc ha hc
    rcases hb : lookupE b p with _ | e
    · exact hj2 p cc hb hc
    · cases e with
      | dir => rw [hp2.1 p hb] at hc; cases hc
      | file c1 => exact hj1 p c1 ha hb

theorem evol_set_new_dir (fs : FS) (p : FsPath) (h : lookupE fs p = none) :
    Evol fs (setEntry fs p Entry.dir) := by
  refine ⟨⟨fun q hq => ?_, fun q c hq => ?_⟩, ⟨[p], keys_set_of_none fs p Entry.dir h, ?_⟩, ?_⟩
  · have hqp : q ≠ p := fun he => by rw [he, h] at hq; cases hq
    rw [lookup_set_ne fs p q Entry.dir hqp]; exact hq
  · have hqp : q ≠ p := fun he => by rw [he, h] at hq; cases hq
    exact ⟨c, by rw [lookup_set_ne fs p q (Entry.dir) hqp]; exact hq, fun _ => rfl⟩
  · intro q hq; simp at hq; rw [hq]; exact h
  · intro q c hq hc
    by_cases hqp : q = p
    · rw [hqp, lookup_set_self] at hc; cases hc
    · rw [lookup_set_ne fs p q Entry.dir hqp] at hc; rw [hq] at hc; cases hc

theorem evol_set_file (fs : FS) (p : FsPath) (c : String)
    (hd : lookupE fs p ≠ some Entry.dir) (hj : jpgEnd p = true) :
    Evol fs (setEntry fs p (Entry.file c)) := by
  refine ⟨⟨fun q hq => ?_, fun q c0 hq => ?_⟩, ?_, ?_⟩
  · have hqp : q ≠ p := fun he => hd (he ▸ hq)
    rw [lookup_set_ne fs p q (Entry.file c) hqp]; exact hq
  · by_cases hqp : q = p
    · subst hqp
      exact ⟨c, lookup_set_self fs q (Entry.file c), fun hf => by rw [hj] at hf; cases hf⟩
    · exact ⟨c0, by rw [lookup_set_ne fs p q (Entry.file c) hqp]; exact hq, fun _ => rfl⟩
  · rcases hs : lookupE fs p with _ | e
    · exact ⟨[p], keys_set_of_none fs p (Entry.file c) hs, by intro q hq; simp at hq; rw [hq]; exact hs⟩
    · exact ⟨[], by rw [keys_set_of_isSome fs p (Entry.file c) (by simp [hs])]; simp, by simp⟩
  · intro q c0 hq hc
    by_cases hqp : q = p
    · rw [hqp]; exact hj
    · rw [lookup_set_ne fs p q (Entry.file c) hqp] at hc; rw [hq] at hc; cases hc

end HeicC

namespace HeicC

/-! ### Name lemmas -/

theorem fname_concat (l : List String) (x : String) : fname (l ++ [x]) = x := by
  simp [fname]

theorem strEndsJpg_append (s : String) : strEndsJpg (s ++ ".jpg") = true := by
  have h : (s ++ ".jpg").data = s.data ++ ['.', 'j', 'p', 'g'] := by rw [String.data_append]
  rw [strEndsJpg, h, List.reverse_append]
  rfl

theorem jpgEnd_concat (l : List String) (s : String) :
    jpgEnd (l ++ [s ++ ".jpg"]) = true := by
  rw [jpgEnd, fname_concat, strEndsJpg_append]

theorem globRev_not_jpgRev (r : List Char) (hg : heicGlobRev r = true) :
    jpgEndRev r = false := by
  match r with
  | [] | [a] | [a, b] | [a, b, c] | [a, b, c, d] => simp [heicGlobRev] at hg
  | cc :: ii :: ee :: hh :: dd :: rest =>
    simp only [heicGlobRev, Bool.and_eq_true] at hg
    have hc : isCch cc = true := hg.2
    rcases Bool.or_eq_true_iff.mp hc with h1 | h1 <;>
      rw [show cc = _ from by exact_mod_cast of_decide_eq_true h1] <;> rfl

theorem glob_not_jpg (n : String) (hg : heicGlobMatch n = true) : strEndsJpg n = false :=
  globRev_not_jpgRev n.data.reverse hg

theorem glob_not_jpgEnd (p : FsPath) (hg : heicGlobMatch (fname p) = true) :
    jpgEnd p = false := glob_not_jpg (fname p) hg

/-! ### mkdir fold lemmas -/

theorem mkfold_error (e : String) :
    ∀ (L : List FsPath) (fs : FS), L.foldl mkdirStep (fs, .error e) = (fs, .error e)
  | [], _ => rfl
  | q :: L, fs => by
    simp only [List.foldl]
    rw [show mkdirStep (fs, .error e) q = (fs, .error e) from rfl]
    exact mkfold_error e L fs

theorem mkfold_evol :
    ∀ (L : List FsPath) (fs : FS) (ex : Except String Unit),
      Evol fs ((L.foldl mkdirStep (fs, ex)).1)
  | [], fs, _ => evol_refl fs
  | q :: L, fs, ex => by
    simp only [List.foldl]
    cases ex with
    | error e =>
      rw [show mkdirStep (fs, .error e) q = (fs, .error e) from rfl]
      exact mkfold_evol L fs (.error e)
    | ok u =>
      rcases hl : lookupE fs q with _ | en
      · rw [show mkdirStep (fs, .ok u) q = (setEntry fs q Entry.dir, .ok ()) from by
          simp [mkdirStep, hl]]
        exact evol_trans (evol_set_new_dir fs q hl)
          (mkfold_evol L (setEntry fs q Entry.dir) (.ok ()))
      · cases en with
        | dir =>
          rw [show mkdirStep (fs, .ok u) q = (fs, .ok ()) from by simp [mkdirStep, hl]]
          exact mkfold_evol L fs (.ok ())
        | file c =>
          rw [show mkdirStep (fs, .ok u) q = (fs, .error "NotADirectoryError") from by
            simp [mkdirStep, hl]]
          exact mkfold_evol L fs (.error "NotADirectoryError")

theorem mkdirP_evol (fs : FS) (p : FsPath) : Evol fs (mkdirP fs p).1 :=
  mkfold_evol (ancestors p) fs (.ok ())

theorem mkfold_ok_dirs (L : List FsPath) : ∀ (fs fs' : FS),
    L.foldl mkdirStep (fs, .ok ()) = (fs', .ok ()) →
    ∀ q, q ∈ L → lookupE fs' q = some Entry.dir := by
  induction L with
  | nil => intro fs fs' _ q hq; simp at hq
  | cons q0 L ih =>
    intro fs fs' h q hq
    simp only [List.foldl] at h
    rcases hl : lookupE fs q0 with _ | en
    · rw [show mkdirStep (fs, .ok ()) q0 = (setEntry fs q0 Entry.dir, .ok ()) from by
        simp [mkdirStep, hl]] at h
      rcases List.mem_cons.mp hq with rfl | hq'
      · have hev := mkfold_evol L (setEntry fs q Entry.dir) (.ok ())
        rw [h] at hev
        exact hev.1.1 q (lookup_set_self fs q Entry.dir)
      · exact ih (setEntry fs q0 Entry.dir) fs' h q hq'
    · cases en with
      | dir =>
        rw [show mkdirStep (fs, .ok ()) q0 = (fs, .ok ()) from by simp [mkdirStep, hl]] at h
        rcases List.mem_cons.mp hq with rfl | hq'
        · have hev := mkfold_evol L fs (.ok ())
          rw [h] at hev
          exact hev.1.1 q hl
        · exact ih fs fs' h q hq'
      | file c =>
        rw [show mkdirStep (fs, .ok ()) q0 = (fs, .error "NotADirectoryError") from by
          simp [mkdirStep, hl]] at h
        rw [mkfold_error _ L fs] at h
        simp at h

theorem mkfold_frame (L : List FsPath) : ∀ (fs : FS) (ex : Except String Unit) (q : FsPath),
    lookupE (L.foldl mkdirStep (fs, ex)).1 q = lookupE fs q ∨
    (lookupE fs q = none ∧ lookupE (L.foldl mkdirStep (fs, ex)).1 q = some Entry.dir ∧ q ∈ L) := by
  induction L with
  | nil => intro fs ex q; left; rfl
  | cons q0 L ih =>
    intro fs ex q
    simp only [List.foldl]
    cases ex with
    | error e =>
      rw [show mkdirStep (fs, .error e) q0 = (fs, .error e) from rfl]
      rcases ih fs (.error e) q with h | ⟨h1, h2, h3⟩
      · exact Or.inl h
      · exact Or.inr ⟨h1, h2, List.mem_cons_of_mem _ h3⟩
    | ok u =>
      rcases hl : lookupE fs q0 with _ | en
      · rw [show mkdirStep (fs, .ok u) q0 = (setEntry fs q0 Entry.dir, .ok ()) from by
          simp [mkdirStep, hl]]
        rcases ih (setEntry fs q0 Entry.dir) (.ok ()) q with h | ⟨h1, h2, h3⟩
        · by_cases hq : q = q0
          · subst hq
            rw [lookup_set_self fs q Entry.dir] at h
            exact Or.inr ⟨hl, h, List.mem_cons_self _ _⟩
          · rw [lookup_set_ne fs q0 q Entry.dir hq] at h
            exact Or.inl h
        · by_cases hq : q = q0
          · subst hq; rw [lookup_set_self fs q Entry.dir] at h1; cases h1
          · rw [lookup_set_ne fs q0 q Entry.dir hq] at h1
            exact Or.inr ⟨h1, h2, List.mem_cons_of_mem _ h3⟩
      · cases en with
        | dir =>
          rw [show mkdirStep (fs, .ok u) q0 = (fs, .ok ()) from by simp [mkdirStep, hl]]
          rcases ih fs (.ok ()) q with h | ⟨h1, h2, h3⟩
          · exact Or.inl h
          · exact Or.inr ⟨h1, h2, List.mem_cons_of_mem _ h3⟩
        | file c =>
          rw [show mkdirStep (fs, .ok u) q0 = (fs, .error "NotADirectoryError") from by
            simp [mkdirStep, hl]]
          rcases ih fs (.error "NotADirectoryError") q with h | ⟨h1, h2, h3⟩
          · exact Or.inl h
          · exact Or.inr ⟨h1, h2, List.mem_cons_of_mem _ h3⟩

end HeicC

namespace HeicC

/-! ### writeFile lemmas -/

theorem not_dir_of_isDirB_false (fs : FS) (p : FsPath) (h : isDirB fs p = false) :
    lookupE fs p ≠ some Entry.dir := by
  cases p with
  | nil => simp [isDirB] at h
  | cons a l => simpa [isDirB] using h

theorem isDirB_of_lookup_dir (fs : FS) (p : FsPath) (h : lookupE fs p = some Entry.dir) :
    isDirB fs p = true := by
  cases p with
  | nil => rfl
  | cons a l => simp [isDirB, h]

theorem persist_isDirB {a b : FS} (h : Persist a b) (p : FsPath)
    (hd : isDirB a p = true) : isDirB b p = true := by
  cases p with
  | nil => rfl
  | cons x l =>
    simp only [isDirB, decide_eq_true_eq] at hd ⊢
    exact h.1 _ hd

theorem writeFile_ok (fs : FS) (p : FsPath) (c : String) (fs' : FS) (u : Unit)
    (h : writeFile fs p c = (fs', .ok u)) :
    fs' = setEntry fs p (Entry.file c) ∧ isDirB fs p = false ∧ isDirB fs p.dropLast = true := by
  unfold writeFile at h
  by_cases h1 : isDirB fs p
  · simp [h1] at h
  · by_cases h2 : isDirB fs p.dropLast
    · simp only [h1, h2, if_true, if_false, Bool.false_eq_true, ite_false, ite_true] at h
      refine ⟨?_, by simp [h1], h2⟩
      exact (Prod.mk.injEq _ _ _ _ ▸ h).1.symm
    · simp [h1, h2] at h

theorem writeFile_error (fs : FS) (p : FsPath) (c : String) (fs' : FS) (e : String)
    (h : writeFile fs p c = (fs', .error e)) :
    fs' = fs ∧ (isDirB fs p = true ∨ isDirB fs p.dropLast = false) := by
  unfold writeFile at h
  by_cases h1 : isDirB fs p
  · simp only [h1, ite_true] at h
    exact ⟨(Prod.mk.injEq _ _ _ _ ▸ h).1.symm, Or.inl h1⟩
  · by_cases h2 : isDirB fs p.dropLast
    · simp [h1, h2] at h
    · simp only [h1, h2, Bool.false_eq_true, ite_false] at h
      exact ⟨(Prod.mk.injEq _ _ _ _ ▸ h).1.symm, Or.inr (by simp [h2])⟩

theorem writeFile_evol (fs : FS) (p : FsPath) (c : String) (hj : jpgEnd p = true) :
    Evol fs (writeFile fs p c).1 := by
  unfold writeFile
  by_cases h1 : isDirB fs p
  · simp only [h1, ite_true]; exact evol_refl fs
  · by_cases h2 : isDirB fs p.dropLast
    · simp only [h1, h2, Bool.false_eq_true, ite_false, ite_true]
      exact evol_set_file fs p c (not_dir_of_isDirB_false fs p (by simp [h1])) hj
    · simp only [h1, h2, Bool.false_eq_true, ite_false]; exact evol_refl fs

/-! ### convertBody lemmas -/

/-- Equation lemmas of `convertBody`, one per exit point of the match chain. -/
theorem convertBody_rel_err (cd : Codec) (f i o : FsPath) (fs : FS) (e : String)
    (hrel : relative_to f i = .error e) : convertBody cd f i o fs = (fs, .error e) := by
  unfold convertBody; rw [hrel]

theorem convertBody_mkdir_err (cd : Codec) (f i o : FsPath) (fs fs₁ : FS) (rel : FsPath)
    (e : String) (hrel : relative_to f i = .ok rel)
    (hm : mkdirP fs (o ++ rel.dropLast) = (fs₁, .error e)) :
    convertBody cd f i o fs = (fs₁, .error e) := by
  unfold convertBody; rw [hrel]; simp only []; rw [hm]

theorem convertBody_read_err (cd : Codec) (f i o : FsPath) (fs fs₁ : FS) (rel : FsPath)
    (u : Unit) (e : String) (hrel : relative_to f i = .ok rel)
    (hm : mkdirP fs (o ++ rel.dropLast) = (fs₁, .ok u))
    (hrd : readFileE fs₁ f = .error e) :
    convertBody cd f i o fs = (fs₁, .error e) := by
  unfold convertBody; rw [hrel]; simp only []; rw [hm]; simp only []; rw [hrd]

theorem convertBody_decode_err (cd : Codec) (f i o : FsPath) (fs fs₁ : FS) (rel : FsPath)
    (u : Unit) (bytes e : String) (hrel : relative_to f i = .ok rel)
    (hm : mkdirP fs (o ++ rel.dropLast) = (fs₁, .ok u))
    (hrd : readFileE fs₁ f = .ok bytes) (hdec : cd.decode bytes = .error e) :
    convertBody cd f i o fs = (fs₁, .error e) := by
  unfold convertBody; rw [hrel]; simp only []; rw [hm]; simp only []; rw [hrd]
  simp only []; rw [hdec]

theorem convertBody_rgb_err (cd : Codec) (f i o : FsPath) (fs fs₁ : FS) (rel : FsPath)
    (u : Unit) (bytes e : String) (img : Image) (hrel : relative_to f i = .ok rel)
    (hm : mkdirP fs (o ++ rel.dropLast) = (fs₁, .ok u))
    (hrd : readFileE fs₁ f = .ok bytes) (hdec : cd.decode bytes = .ok img)
    (hrgb : cd.toRGB img = .error e) :
    convertBody cd f i o fs = (fs₁, .error e) := by
  unfold convertBody; rw [hrel]; simp only []; rw [hm]; simp only []; rw [hrd]
  simp only []; rw [hdec]; simp only []; rw [hrgb]

theorem convertBody_enc_err (cd : Codec) (f i o : FsPath) (fs fs₁ : FS) (rel : FsPath)
    (u : Unit) (bytes e : String) (img rgb : Image) (hrel : relative_to f i = .ok rel)
    (hm : mkdirP fs (o ++ rel.dropLast) = (fs₁, .ok u))
    (hrd : readFileE fs₁ f = .ok bytes) (hdec : cd.decode bytes = .ok img)
    (hrgb : cd.toRGB img = .ok rgb) (henc : cd.encodeJPEG rgb = .error e) :
    convertBody cd f i o fs = (fs₁, .error e) := by
  unfold convertBody; rw [hrel]; simp only []; rw [hm]; simp only []; rw [hrd]
  simp only []; rw [hdec]; simp only []; rw [hrgb]; simp only []; rw [henc]

theorem convertBody_write_err (cd : Codec) (f i o : FsPath) (fs fs₁ fs₂ : FS)
    (rel : FsPath) (u : Unit) (bytes e outBytes : String) (img rgb : Image)
    (hrel : relative_to f i = .ok rel)
    (hm : mkdirP fs (o ++ rel.dropLast) = (fs₁, .ok u))
    (hrd : readFileE fs₁ f = .ok bytes) (hdec : cd.decode bytes = .ok img)
    (hrgb : cd.toRGB img = .ok rgb) (henc : cd.encodeJPEG rgb = .ok outBytes)
    (hw : writeFile fs₁ (o ++ rel.dropLast ++ [pystem (fname f) ++ ".jpg"]) outBytes =
      (fs₂, .error e)) :
    convertBody cd f i o fs = (fs₂, .error e) := by
  unfold convertBody; rw [hrel]; simp only []; rw [hm]; simp only []; rw [hrd]
  simp only []; rw [hdec]; simp only []; rw [hrgb]; simp only []; rw [henc]
  simp only []; rw [hw]

theorem convertBody_write_ok (cd : Codec) (f i o : FsPath) (fs fs₁ fs₂ : FS)
    (rel : FsPath) (u u2 : Unit) (bytes outBytes : String) (img rgb : Image)
    (hrel : relative_to f i = .ok rel)
    (hm : mkdirP fs (o ++ rel.dropLast) = (fs₁, .ok u))
    (hrd : readFileE fs₁ f = .ok bytes) (hdec : cd.decode bytes = .ok img)
    (hrgb : cd.toRGB img = .ok rgb) (henc : cd.encodeJPEG rgb = .ok outBytes)
    (hw : writeFile fs₁ (o ++ rel.dropLast ++ [pystem (fname f) ++ ".jpg"]) outBytes =
      (fs₂, .ok u2)) :
    convertBody cd f i o fs = (fs₂, .ok (o ++ rel.dropLast ++ [pystem (fname f) ++ ".jpg"])) := by
  unfold convertBody; rw [hrel]; simp only []; rw [hm]; simp only []; rw [hrd]
  simp only []; rw [hdec]; simp only []; rw [hrgb]; simp only []; rw [henc]
  simp only []; rw [hw]

theorem convertBody_evol (cd : Codec) (f i o : FsPath) (fs : FS) :
    Evol fs (convertBody cd f i o fs).1 := by
  cases hrel : relative_to f i with
  | error e => rw [convertBody_rel_err cd f i o fs e hrel]; exact evol_refl fs
  | ok rel =>
    rcases hm : mkdirP fs (o ++ rel.dropLast) with ⟨fs₁, ex⟩
    have hev1 : Evol fs fs₁ := by
      have h := mkdirP_evol fs (o ++ rel.dropLast)
      rwa [hm] at h
    cases ex with
    | error e => rw [convertBody_mkdir_err cd f i o fs fs₁ rel e hrel hm]; exact hev1
    | ok u =>
      cases hrd : readFileE fs₁ f with
      | error e => rw [convertBody_read_err cd f i o fs fs₁ rel u e hrel hm hrd]; exact hev1
      | ok bytes =>
        cases hdec : cd.decode bytes with
        | error e =>
          rw [convertBody_decode_err cd f i o fs fs₁ rel u bytes e hrel hm hrd hdec]
          exact hev1
        | ok img =>
          cases hrgb : cd.toRGB img with
          | error e =>
            rw [convertBody_rgb_err cd f i o fs fs₁ rel u bytes e img hrel hm hrd hdec hrgb]
            exact hev1
          | ok rgb =>
            cases henc : cd.encodeJPEG rgb with
            | error e =>
              rw [convertBody_enc_err cd f i o fs fs₁ rel u bytes e img rgb
                hrel hm hrd hdec hrgb henc]
              exact hev1
            | ok outBytes =>
              rcases hw : writeFile fs₁ (o ++ rel.dropLast ++ [pystem (fname f) ++ ".jpg"])
                  outBytes with ⟨fs₂, ex₂⟩
              have hev2 : Evol fs₁ fs₂ := by
                have h := writeFile_evol fs₁
                  (o ++ rel.dropLast ++ [pystem (fname f) ++ ".jpg"]) outBytes
                  (jpgEnd_concat _ _)
                rwa [hw] at h
              cases ex₂ with
              | error e =>
                rw [convertBody_write_err cd f i o fs fs₁ fs₂ rel u bytes e outBytes img rgb
                  hrel hm hrd hdec hrgb henc hw]
                exact evol_trans hev1 hev2
              | ok u2 =>
                rw [convertBody_write_ok cd f i o fs fs₁ fs₂ rel u u2 bytes outBytes img rgb
                  hrel hm hrd hdec hrgb henc hw]
                exact evol_trans hev1 hev2

theorem runAll_evol (cd : Codec) (i o : FsPath) :
    ∀ (files : List FsPath) (fs : FS), Evol fs (runAll cd i o fs files).1
  | [], fs => evol_refl fs
  | f :: rest, fs => by
    rw [runAll_cons]
    exact evol_trans (convertBody_evol cd f i o fs)
      (runAll_evol cd i o rest (convertBody cd f i o fs).1)

end HeicC

namespace HeicC

/-! ### Concrete fixtures used by counterexamples and witnesses -/

/-- Decidable equality of `Except` results, for evaluating the model on
concrete inputs. -/
instance instDecEqExcept {ε α : Type} [DecidableEq ε] [DecidableEq α] :
    DecidableEq (Except ε α)
  | .ok a, .ok b =>
    if h : a = b then .isTrue (by rw [h]) else .isFalse (fun he => h (Except.ok.inj he))
  | .error a, .error b =>
    if h : a = b then .isTrue (by rw [h]) else .isFalse (fun he => h (Except.error.inj he))
  | .ok _, .error _ => .isFalse (fun he => Except.noConfusion he)
  | .error _, .ok _ => .isFalse (fun he => Except.noConfusion he)

/-- A codec whose decode, RGB conversion and encode always succeed. -/
def codOk : Codec :=
  ⟨fun s => .ok ⟨"heif", s⟩, fun im => .ok ⟨"RGB", im.dat⟩, fun im => .ok ("JPG:" ++ im.dat)⟩

/-- A codec whose decode fails with the message `boom1`. -/
def codErr1 : Codec := ⟨fun _ => .error "boom1", fun im => .ok im, fun im => .ok im.dat⟩

/-- A codec whose decode fails with the message `boom2`. -/
def codErr2 : Codec := ⟨fun _ => .error "boom2", fun im => .ok im, fun im => .ok im.dat⟩

/-- An input tree holding a single HEIC file. -/
def fsOneHeic : FS := [(["in"], Entry.dir), (["in", "a.heic"], Entry.file "x")]

/-- A world where the input path exists as a regular file, not a directory. -/
def fsInputFile : FS := [(["f"], Entry.file "d")]

/-- An input tree with zero matching files but one directory whose name
matches the source-extension pattern. -/
def fsDirMatch : FS := [(["in"], Entry.dir), (["in", "d.heic"], Entry.dir)]

/-- An input tree that is an existing empty directory. -/
def fsEmptyDir : FS := [(["in"], Entry.dir)]

/-! ### Inversion of a successful conversion -/

theorem relative_to_ok (f i rel : FsPath) (h : relative_to f i = .ok rel) :
    rel = f.drop i.length ∧ isPre i f = true := by
  unfold relative_to at h
  by_cases hp : isPre i f
  · simp only [hp, if_true, ite_true, Except.ok.injEq] at h
    exact ⟨h.symm, hp⟩
  · simp [hp] at h

theorem convertBody_ok_inv (cd : Codec) (f i o : FsPath) (fs fs' : FS) (p : FsPath)
    (h : convertBody cd f i o fs = (fs', .ok p)) :
    ∃ rel fs₁ bytes img rgb outBytes,
      relative_to f i = .ok rel ∧
      mkdirP fs (o ++ rel.dropLast) = (fs₁, .ok ()) ∧
      readFileE fs₁ f = .ok bytes ∧ cd.decode bytes = .ok img ∧
      cd.toRGB img = .ok rgb ∧ cd.encodeJPEG rgb = .ok outBytes ∧
      writeFile fs₁ (o ++ rel.dropLast ++ [pystem (fname f) ++ ".jpg"]) outBytes =
        (fs', .ok ()) ∧
      p = o ++ rel.dropLast ++ [pystem (fname f) ++ ".jpg"] := by
  cases hrel : relative_to f i with
  | error e => rw [convertBody_rel_err cd f i o fs e hrel] at h; simp at h
  | ok rel =>
    rcases hm : mkdirP fs (o ++ rel.dropLast) with ⟨fs₁, ex⟩
    cases ex with
    | error e => rw [convertBody_mkdir_err cd f i o fs fs₁ rel e hrel hm] at h; simp at h
    | ok u =>
      cases hrd : readFileE fs₁ f with
      | error e => rw [convertBody_read_err cd f i o fs fs₁ rel u e hrel hm hrd] at h; simp at h
      | ok bytes =>
        cases hdec : cd.decode bytes with
        | error e =>
          rw [convertBody_decode_err cd f i o fs fs₁ rel u bytes e hrel hm hrd hdec] at h
          simp at h
        | ok img =>
          cases hrgb : cd.toRGB img with
          | error e =>
            rw [convertBody_rgb_err cd f i o fs fs₁ rel u bytes e img hrel hm hrd hdec hrgb] at h
            simp at h
          | ok rgb =>
            cases henc : cd.encodeJPEG rgb with
            | error e =>
              rw [convertBody_enc_err cd f i o fs fs₁ rel u bytes e img rgb
                hrel hm hrd hdec hrgb henc] at h
              simp at h
            | ok outBytes =>
              rcases hw : writeFile fs₁ (o ++ rel.dropLast ++ [pystem (fname f) ++ ".jpg"])
                  outBytes with ⟨fs₂, ex₂⟩
              cases ex₂ with
              | error e =>
                rw [convertBody_write_err cd f i o fs fs₁ fs₂ rel u bytes e outBytes img rgb
                  hrel hm hrd hdec hrgb henc hw] at h
                simp at h
              | ok u2 =>
                rw [convertBody_write_ok cd f i o fs fs₁ fs₂ rel u u2 bytes outBytes img rgb
                  hrel hm hrd hdec hrgb henc hw] at h
                have h1 : fs₂ = fs' := (Prod.mk.injEq _ _ _ _ ▸ h).1
                have h2 : p = o ++ rel.dropLast ++ [pystem (fname f) ++ ".jpg"] := by
                  have := (Prod.mk.injEq _ _ _ _ ▸ h).2
                  exact (Except.ok.injEq _ _ ▸ this).symm
                exact ⟨rel, fs₁, bytes, img, rgb, outBytes, rfl, hm, hrd, hdec, hrgb, henc,
                  h1 ▸ hw, h2⟩

end HeicC

namespace HeicC

/-- C7: every successful conversion writes its output at
`output_root / (source parent relative to input_root) / (stem + ".jpg")`:
the written path follows that formula, it holds the encoded file afterwards
(silently replacing whatever file was there), the ancestor chain of the
target directory exists as directories (created idempotently), and nothing
else changes except directories created along that chain. -/
theorem c7_output_path_layout (cd : Codec) (f i o : FsPath) (fs fs' : FS) (p : FsPath)
    (h : convertBody cd f i o fs = (fs', .ok p)) :
    p = o ++ (f.drop i.length).dropLast ++ [pystem (fname f) ++ ".jpg"] ∧
    (∃ bytes, lookupE fs' p = some (Entry.file bytes)) ∧
    (∀ q, q ∈ ancestors (o ++ (f.drop i.length).dropLast) → lookupE fs' q = some Entry.dir) ∧
    (∀ q, q ≠ p → lookupE fs' q = lookupE fs q ∨
      (lookupE fs q = none ∧ lookupE fs' q = some Entry.dir ∧
        q ∈ ancestors (o ++ (f.drop i.length).dropLast))) := by
  obtain ⟨rel, fs₁, bytes, img, rgb, outBytes, hrel, hm, hrd, hdec, hrgb, henc, hw, hp⟩ :=
    convertBody_ok_inv cd f i o fs fs' p h
  obtain ⟨hrel1, -⟩ := relative_to_ok f i rel hrel
  subst hrel1
  subst hp
  obtain ⟨hfs', hnd, -⟩ := writeFile_ok fs₁ _ outBytes fs' () hw
  have hdirs : ∀ q, q ∈ ancestors (o ++ (f.drop i.length).dropLast) →
      lookupE fs₁ q = some Entry.dir :=
    mkfold_ok_dirs (ancestors (o ++ (f.drop i.length).dropLast)) fs fs₁ hm
  refine ⟨rfl, ⟨outBytes, ?_⟩, ?_, ?_⟩
  · rw [hfs']
    exact lookup_set_self fs₁ _ (Entry.file outBytes)
  · intro q hq
    have hd := hdirs q hq
    have hqp : q ≠ o ++ (f.drop i.length).dropLast ++ [pystem (fname f) ++ ".jpg"] := by
      intro he
      rw [he] at hd
      rw [isDirB_of_lookup_dir fs₁ _ hd] at hnd
      cases hnd
    rw [hfs', lookup_set_ne fs₁ _ q (Entry.file outBytes) hqp]
    exact hd
  · intro q hqp
    rw [hfs', lookup_set_ne fs₁ _ q (Entry.file outBytes) hqp]
    have hfr := mkfold_frame (ancestors (o ++ (f.drop i.length).dropLast)) fs (.ok ()) q
    rw [show (ancestors (o ++ (f.drop i.length).dropLast)).foldl mkdirStep (fs, .ok ()) =
      mkdirP fs (o ++ (f.drop i.length).dropLast) from rfl, hm] at hfr
    exact hfr

/-- Witness for C7: on a one-file tree the written path follows the layout
formula. -/
theorem c7_output_path_layout_witness :
    (["in", "out", "a.jpg"] : FsPath) =
      ["in", "out"] ++ ((["in", "a.heic"] : FsPath).drop (["in"] : FsPath).length).dropLast ++
        [pystem (fname ["in", "a.heic"]) ++ ".jpg"] :=
  (c7_output_path_layout codOk ["in", "a.heic"] ["in"] ["in", "out"] fsOneHeic
    [(["in", "out", "a.jpg"], Entry.file "JPG:x"), (["in", "out"], Entry.dir),
     (["in"], Entry.dir), (["in", "a.heic"], Entry.file "x")]
    ["in", "out", "a.jpg"] (by decide)).1

/-- C3 counterexample: the outcome value returned by the converter cannot
carry the caught error's message — two runs failing with different messages
return identical outcomes, so no consumer-side reading of the outcome
recovers the message text. This negates the claim that the outcome carries
an `error_detail` field. -/
theorem c3_counterexample_no_error_detail :
    ¬ ∃ extract : Bool × String → String,
      ∀ (cd : Codec) (f i o : FsPath) (fs : FS) (e : String),
        (convertBody cd f i o fs).2 = .error e →
        extract (convert_single_heic cd f i o fs).2.1 = e := by
  rintro ⟨ex, hex⟩
  have h1 := hex codErr1 ["in", "a.heic"] ["in"] ["in", "out"] fsOneHeic "boom1" (by decide)
  have h2 := hex codErr2 ["in", "a.heic"] ["in"] ["in", "out"] fsOneHeic "boom2" (by decide)
  have houtcome :
      (convert_single_heic codErr1 ["in", "a.heic"] ["in"] ["in", "out"] fsOneHeic).2.1 =
      (convert_single_heic codErr2 ["in", "a.heic"] ["in"] ["in", "out"] fsOneHeic).2.1 := by
    decide
  rw [houtcome] at h1
  exact absurd (h1.symm.trans h2) (by decide)

/-- C3 (amended): a failed conversion returns only the failure flag and the
display name in its outcome; the caught error's message text goes to the
console line the converter prints, not into the outcome value. -/
theorem c3_amended_error_text_only_printed (cd : Codec) (f i o : FsPath) (fs : FS)
    (e : String) (h : (convertBody cd f i o fs).2 = .error e) :
    (convert_single_heic cd f i o fs).2.1 = (false, fname f) ∧
    (convert_single_heic cd f i o fs).2.2 = ["Error converting " ++ fname f ++ ": " ++ e] := by
  unfold convert_single_heic
  rcases hb : convertBody cd f i o fs with ⟨fs', r⟩
  rw [hb] at h
  cases r with
  | ok p => simp at h
  | error e2 =>
    simp only [] at h
    injection h with h'
    subst h'
    exact ⟨rfl, rfl⟩

/-- Witness for the amended C3 at a concrete failing decode. -/
theorem c3_amended_error_text_only_printed_witness :
    (convert_single_heic codErr1 ["in", "a.heic"] ["in"] ["in", "out"] fsOneHeic).2.1 =
      (false, fname ["in", "a.heic"]) ∧
    (convert_single_heic codErr1 ["in", "a.heic"] ["in"] ["in", "out"] fsOneHeic).2.2 =
      ["Error converting " ++ fname ["in", "a.heic"] ++ ": " ++ "boom1"] :=
  c3_amended_error_text_only_printed codErr1 ["in", "a.heic"] ["in"] ["in", "out"] fsOneHeic
    "boom1" (by decide)

/-- C5 counterexample: an input path that exists as a regular file is not a
directory, yet the batch does not fail with the not-found report — it
proceeds past the `exists()` check and crashes with an uncaught error while
creating the output directory. -/
theorem c5_counterexample_input_is_file :
    isDirB fsInputFile ["f"] = false ∧
    convert_heic_to_jpeg codOk (some 8) fsInputFile ["f"] "out" =
      .error "NotADirectoryError" := by
  decide

/-- C5 (amended): for every input path that does not exist at all, the batch
reports the fatal not-found result before any work: the filesystem is
untouched, nothing is enumerated, no conversion runs. -/
theorem c5_missing_input_notFound (cd : Codec) (cpu : Option Nat) (fs : FS) (i : FsPath)
    (oname : String) (h : lookupE fs i = none) :
    convert_heic_to_jpeg cd cpu fs i oname = .ok ⟨fs, .notFound, [], []⟩ := by
  unfold convert_heic_to_jpeg
  simp [h]

/-- Witness for the amended C5 on an empty world. -/
theorem c5_missing_input_notFound_witness :
    convert_heic_to_jpeg codOk none [] ["x"] "out" = .ok ⟨[], .notFound, [], []⟩ :=
  c5_missing_input_notFound codOk none [] ["x"] "out" rfl

/-- C8 counterexample: a tree with zero files carrying the source extension
but one directory whose name matches the pattern does not end in the
empty-result report — the directory is enumerated, its conversion fails, and
the run completes with one error. -/
theorem c8_counterexample_matching_dir :
    matchingFiles fsDirMatch ["in"] = [] ∧
    convert_heic_to_jpeg codOk (some 4) fsDirMatch ["in"] "out" =
      .ok ⟨[(["in", "out"], Entry.dir), (["in"], Entry.dir), (["in", "d.heic"], Entry.dir)],
        .completed 0 1, [(false, "d.heic")], []⟩ := by
  decide

/-- C8 (amended): when the input directory exists, the output directory can
be created, and the enumeration — which matches directories as well as
files — finds nothing, the batch ends successfully in the empty-result
report with no conversion work, and the only filesystem effect is the
unconditional creation of the output directory chain before enumeration. -/
theorem c8_empty_result (cd : Codec) (cpu : Option Nat) (fs fs₁ : FS) (i : FsPath)
    (oname : String) (u : Unit) (hin : (lookupE fs i).isSome)
    (hm : mkdirP fs (i ++ [oname]) = (fs₁, .ok u))
    (hemp : enumerate fs₁ i = []) :
    convert_heic_to_jpeg cd cpu fs i oname = .ok ⟨fs₁, .empty, [], []⟩ ∧
    ∀ q, lookupE fs₁ q = lookupE fs q ∨
      (lookupE fs q = none ∧ lookupE fs₁ q = some Entry.dir ∧ q ∈ ancestors (i ++ [oname])) := by
  constructor
  · unfold convert_heic_to_jpeg
    simp only [hin, if_true]
    rw [hm]
    simp only []
    rw [hemp]
    rfl
  · intro q
    have hfr := mkfold_frame (ancestors (i ++ [oname])) fs (.ok ()) q
    rw [show (ancestors (i ++ [oname])).foldl mkdirStep (fs, .ok ()) =
      mkdirP fs (i ++ [oname]) from rfl, hm] at hfr
    exact hfr

/-- Witness for the amended C8 on an existing empty input directory. -/
theorem c8_empty_result_witness :
    convert_heic_to_jpeg codOk none fsEmptyDir ["in"] "out" =
      .ok ⟨[(["in", "out"], Entry.dir), (["in"], Entry.dir)], .empty, [], []⟩ :=
  (c8_empty_result codOk none fsEmptyDir [(["in", "out"], Entry.dir), (["in"], Entry.dir)]
    ["in"] "out" () (by decide) (by decide) (by decide)).1

end HeicC

namespace HeicC

/-! ### Glob pattern versus spec-side extension test -/

/-- The spec-side extension check on a reversed name. -/
def extChkRev (r : List Char) : Bool :=
  match takeUntilDotRev r with
  | some l => heicLetters l
  | none => false

theorem extIsHeic_eq (n : String) : extIsHeic n = extChkRev n.data.reverse := rfl

theorem takeUntil_some (r : List Char) :
    ∀ l, takeUntilDotRev r = some l → ∃ rest, r = l.reverse ++ '.' :: rest := by
  induction r with
  | nil => intro l h; simp [takeUntilDotRev] at h
  | cons c rest ih =>
    intro l h
    by_cases hc : c = '.'
    · subst hc
      simp [takeUntilDotRev] at h
      subst h
      exact ⟨rest, rfl⟩
    · simp only [takeUntilDotRev, hc, if_false, ite_false, Option.map_eq_some'] at h
      obtain ⟨l', h1, h2⟩ := h
      obtain ⟨rest', hr⟩ := ih l' h1
      subst h2
      exact ⟨rest', by simp [hr, List.reverse_append]⟩

theorem ext_of_glob (r : List Char) (hg : heicGlobRev r = true) : extChkRev r = true := by
  match r with
  | [] | [a] | [a, b] | [a, b, c] | [a, b, c, d] => simp [heicGlobRev] at hg
  | c0 :: i0 :: e0 :: h0 :: d0 :: rest =>
    simp only [heicGlobRev, Bool.and_eq_true, decide_eq_true_eq, isHch, isEch, isIch, isCch,
      Bool.or_eq_true] at hg
    obtain ⟨⟨⟨⟨hd, hh⟩, he⟩, hi⟩, hc⟩ := hg
    subst hd
    rcases hh with hh | hh <;> rcases he with he | he <;> rcases hi with hi | hi <;>
      rcases hc with hc | hc <;> subst hh <;> subst he <;> subst hi <;> subst hc <;>
      simp [extChkRev, takeUntilDotRev, heicLetters, isHch, isEch, isIch, isCch]

theorem glob_of_ext (r : List Char) (he : extChkRev r = true) : heicGlobRev r = true := by
  unfold extChkRev at he
  rcases ht : takeUntilDotRev r with _ | l
  · rw [ht] at he; simp at he
  · rw [ht] at he
    simp only [] at he
    rcases l with _ | ⟨a, _ | ⟨b, _ | ⟨c1, _ | ⟨d1, _ | ⟨e1, tl⟩⟩⟩⟩⟩
    · simp [heicLetters] at he
    · simp [heicLetters] at he
    · simp [heicLetters] at he
    · simp [heicLetters] at he
    · obtain ⟨rest, hr⟩ := takeUntil_some r [a, b, c1, d1] ht
      subst hr
      simp only [heicLetters, Bool.and_eq_true] at he
      obtain ⟨⟨⟨hh, hee⟩, hi⟩, hc⟩ := he
      simp [heicGlobRev, hh, hee, hi, hc]
    · simp [heicLetters] at he

theorem globRev_eq_extRev (r : List Char) : heicGlobRev r = extChkRev r := by
  cases hg : heicGlobRev r
  · cases he : extChkRev r
    · rfl
    · rw [glob_of_ext r he] at hg; cases hg
  · rw [ext_of_glob r hg]

/-- The enumerator's glob pattern accepts exactly the file names whose
extension — the segment after the last dot — is the source extension in any
mixture of letter case. -/
theorem glob_eq_ext (n : String) : heicGlobMatch n = extIsHeic n :=
  globRev_eq_extRev n.data.reverse

theorem c4_enum_eq_matching (fs : FS) (root : FsPath)
    (hdirs : ∀ pe ∈ fs, pe.2 = Entry.dir → heicGlobMatch (fname pe.1) = false) :
    enumerate fs root = matchingFiles fs root := by
  unfold enumerate matchingFiles
  apply List.filterMap_congr
  intro pe hpe
  rcases pe with ⟨q, en⟩
  cases en with
  | dir =>
    have hg := hdirs (q, Entry.dir) hpe rfl
    simp [hg]
  | file c =>
    simp only []
    rw [glob_eq_ext]

end HeicC

namespace HeicC

/-- A tree with matching files in mixed letter case, a non-matching file and
nested directories. -/
def fsMixed : FS :=
  [(["in"], Entry.dir), (["in", "A"], Entry.dir), (["in", "A", "p.HeIc"], Entry.file "1"),
   (["in", "b.txt"], Entry.file "2"), (["in", "c.heic"], Entry.file "3")]

/-- C4 counterexample: a tree containing zero files with the source
extension and zero files without it, but one directory whose name matches
the pattern: enumeration returns that directory's path instead of the empty
list of matching files the claim demands. -/
theorem c4_counterexample_dir_enumerated :
    matchingFiles fsDirMatch ["in"] = [] ∧
    enumerate fsDirMatch ["in"] = [["in", "d.heic"]] := by
  decide

/-- C4 (amended): in a tree none of whose directories has a pattern-matching
name, enumeration returns exactly the files under the root whose extension
is the source extension in any mixture of letter case — all N of them and
none of the M others. (In general `rglob` also returns matching-named
directories.) -/
theorem c4_enumeration_exact (fs : FS) (root : FsPath)
    (hdirs : ∀ pe ∈ fs, pe.2 = Entry.dir → heicGlobMatch (fname pe.1) = false) :
    enumerate fs root = matchingFiles fs root :=
  c4_enum_eq_matching fs root hdirs

/-- Witness for the amended C4 on a mixed tree. -/
theorem c4_enumeration_exact_witness :
    enumerate fsMixed ["in"] = matchingFiles fsMixed ["in"] :=
  c4_enumeration_exact fsMixed ["in"] (by decide)

end HeicC

namespace HeicC

/-! ### Helpers for the idempotence argument -/

theorem persist_isFileB {a b : FS} (h : Persist a b) (p : FsPath)
    (hf : isFileB a p = true) : isFileB b p = true := by
  unfold isFileB at hf ⊢
  rcases hl : lookupE a p with _ | en
  · rw [hl] at hf; simp at hf
  · cases en with
    | dir => rw [hl] at hf; simp at hf
    | file c =>
      obtain ⟨c', hb, -⟩ := h.2 p c hl
      rw [hb]

theorem isFileB_false_of_dir (fs : FS) (p : FsPath) (h : lookupE fs p = some Entry.dir) :
    isFileB fs p = false := by
  unfold isFileB
  rw [h]

theorem isDirB_false_of_file (fs : FS) (p : FsPath) (c : String) (hne : p ≠ [])
    (h : lookupE fs p = some (Entry.file c)) : isDirB fs p = false := by
  cases p with
  | nil => exact absurd rfl hne
  | cons a l => simp [isDirB, h]

theorem concat_ne_nil (l : FsPath) (x : String) : l ++ [x] ≠ [] := by
  simp

/-- When every path in the list is already a directory,
`mkdir(parents=True, exist_ok=True)` is the identity. -/
theorem mkfold_id : ∀ (L : List FsPath) (g : FS),
    (∀ q ∈ L, lookupE g q = some Entry.dir) →
    L.foldl mkdirStep (g, .ok ()) = (g, .ok ())
  | [], _, _ => rfl
  | q :: L, g, hd => by
    simp only [List.foldl]
    rw [show mkdirStep (g, .ok ()) q = (g, .ok ()) from by
      simp [mkdirStep, hd q (List.mem_cons_self _ _)]]
    exact mkfold_id L g (fun q' hq' => hd q' (List.mem_cons_of_mem _ hq'))

/-- When the source-side `mkdir` failed, any later filesystem in which its
final state persists fails as well. -/
theorem mkfold_sim_err : ∀ (L : List FsPath) (s s₁ g : FS) (e : String),
    L.foldl mkdirStep (s, .ok ()) = (s₁, .error e) → Persist s₁ g →
    ∃ g' e', L.foldl mkdirStep (g, .ok ()) = (g', .error e')
  | [], s, s₁, g, e, h, _ => by simp at h
  | q :: L, s, s₁, g, e, h, hpers => by
    simp only [List.foldl] at h ⊢
    rcases hl : lookupE s q with _ | en
    · rw [show mkdirStep (s, .ok ()) q = (setEntry s q Entry.dir, .ok ()) from by
        simp [mkdirStep, hl]] at h
      have hq1 : lookupE s₁ q = some Entry.dir := by
        have hev := mkfold_evol L (setEntry s q Entry.dir) (.ok ())
        rw [h] at hev
        exact hev.1.1 q (lookup_set_self s q Entry.dir)
      have hqg : lookupE g q = some Entry.dir := hpers.1 q hq1
      rw [show mkdirStep (g, .ok ()) q = (g, .ok ()) from by simp [mkdirStep, hqg]]
      exact mkfold_sim_err L (setEntry s q Entry.dir) s₁ g e h hpers
    · cases en with
      | dir =>
        rw [show mkdirStep (s, .ok ()) q = (s, .ok ()) from by simp [mkdirStep, hl]] at h
        have hq1 : lookupE s₁ q = some Entry.dir := by
          have hev := mkfold_evol L s (.ok ())
          rw [h] at hev
          exact hev.1.1 q hl
        have hqg : lookupE g q = some Entry.dir := hpers.1 q hq1
        rw [show mkdirStep (g, .ok ()) q = (g, .ok ()) from by simp [mkdirStep, hqg]]
        exact mkfold_sim_err L s s₁ g e h hpers
      | file c =>
        rw [show mkdirStep (s, .ok ()) q = (s, .error "NotADirectoryError") from by
          simp [mkdirStep, hl]] at h
        rw [mkfold_error _ L s] at h
        have hs1 : s₁ = s := ((Prod.mk.injEq _ _ _ _ ▸ h).1).symm
        subst hs1
        obtain ⟨c', hg, -⟩ := hpers.2 q c hl
        rw [show mkdirStep (g, .ok ()) q = (g, .error "NotADirectoryError") from by
          simp [mkdirStep, hg]]
        rw [mkfold_error _ L g]
        exact ⟨g, "NotADirectoryError", rfl⟩

/-- The failed outcome of `convert_single_heic` when its body errors. -/
theorem convert_outcome_err (cd : Codec) (f i o : FsPath) (fs : FS) (e : String)
    (h : (convertBody cd f i o fs).2 = .error e) :
    (convert_single_heic cd f i o fs).2.1 = (false, fname f) := by
  unfold convert_single_heic
  rcases hb : convertBody cd f i o fs with ⟨fs', r⟩
  rw [hb] at h
  cases r with
  | ok p => simp at h
  | error e2 => rfl

/-- The successful outcome of `convert_single_heic` when its body succeeds. -/
theorem convert_outcome_ok (cd : Codec) (f i o : FsPath) (fs : FS) (p : FsPath)
    (h : (convertBody cd f i o fs).2 = .ok p) :
    (convert_single_heic cd f i o fs).2.1 = (true, fname f) := by
  unfold convert_single_heic
  rcases hb : convertBody cd f i o fs with ⟨fs', r⟩
  rw [hb] at h
  cases r with
  | ok p2 => rfl
  | error e2 => simp at h

/-- Converting a path that is a directory always fails (its decode raises),
whatever else happens first. -/
theorem convert_dir_err (cd : Codec) (f i o : FsPath) (g : FS)
    (hd : lookupE g f = some Entry.dir) :
    ∃ e, (convertBody cd f i o g).2 = .error e := by
  cases hrel : relative_to f i with
  | error e => exact ⟨e, by rw [convertBody_rel_err cd f i o g e hrel]⟩
  | ok rel =>
    rcases hm : mkdirP g (o ++ rel.dropLast) with ⟨g₁, ex⟩
    cases ex with
    | error e => exact ⟨e, by rw [convertBody_mkdir_err cd f i o g g₁ rel e hrel hm]⟩
    | ok u =>
      have hd1 : lookupE g₁ f = some Entry.dir := by
        have hev := mkdirP_evol g (o ++ rel.dropLast)
        rw [hm] at hev
        exact hev.1.1 f hd
      have hrd : readFileE g₁ f = .error "IsADirectoryError" := by
        unfold readFileE
        rw [hd1]
      exact ⟨"IsADirectoryError", by
        rw [convertBody_read_err cd f i o g g₁ rel u "IsADirectoryError" hrel hm hrd]⟩

end HeicC

namespace HeicC

theorem self_mem_ancestors (p : FsPath) (h : p ≠ []) : p ∈ ancestors p := by
  unfold ancestors
  have hlen : 0 < p.length := List.length_pos.mpr h
  refine List.mem_map.mpr ⟨p.length - 1, ?_, ?_⟩
  · exact List.mem_range.mpr (by omega)
  · rw [show p.length - 1 + 1 = p.length from by omega]
    exact List.take_length p

theorem lookup_dir_of_isDirB (fs : FS) (p : FsPath) (hne : p ≠ [])
    (h : isDirB fs p = true) : lookupE fs p = some Entry.dir := by
  cases p with
  | nil => exact absurd rfl hne
  | cons a l => simpa [isDirB] using h

theorem dropLast_concat' (l : FsPath) (x : String) : (l ++ [x]).dropLast = l := by
  simp

/-- Target directory of a conversion is a directory after its `mkdir`
succeeded (trivially so for the filesystem root). -/
theorem target_isDirB (s₁ : FS) (t : FsPath)
    (hdirs : ∀ q ∈ ancestors t, lookupE s₁ q = some Entry.dir) : isDirB s₁ t = true := by
  rcases ht : t with _ | ⟨x, xs⟩
  · rfl
  · rw [← ht]
    exact isDirB_of_lookup_dir s₁ t (hdirs t (ht ▸ self_mem_ancestors t (by rw [ht]; simp)))

theorem g_mkdir_id (s₁ g : FS) (t : FsPath)
    (hdirs : ∀ q ∈ ancestors t, lookupE s₁ q = some Entry.dir)
    (hp1 : Persist s₁ g) : mkdirP g t = (g, .ok ()) :=
  mkfold_id (ancestors t) g (fun q hq => hp1.1 q (hdirs q hq))

theorem g_read (s₁ g : FS) (f : FsPath) (c : String)
    (hf1 : lookupE s₁ f = some (Entry.file c)) (hp1 : Persist s₁ g)
    (hjpg : jpgEnd f = false) : readFileE g f = .ok c := by
  obtain ⟨c', hb, hc⟩ := hp1.2 f c hf1
  rw [hc hjpg] at hb
  unfold readFileE
  rw [hb]

/-- The simulation lemma: rerunning one conversion in any world where the
conversion's final filesystem persists gives the same verdict — the same
written path on success, a failure on failure. -/
theorem convert_sim (cd : Codec) (f i o : FsPath) (s g : FS)
    (hpers : Persist (convertBody cd f i o s).1 g)
    (hsome : (lookupE s f).isSome)
    (hjpg : jpgEnd f = false) :
    (∃ p, (convertBody cd f i o s).2 = .ok p ∧ (convertBody cd f i o g).2 = .ok p) ∨
    ((∃ e, (convertBody cd f i o s).2 = .error e) ∧
     (∃ e', (convertBody cd f i o g).2 = .error e')) := by
  cases hrel : relative_to f i with
  | error e =>
    rw [convertBody_rel_err cd f i o s e hrel, convertBody_rel_err cd f i o g e hrel]
    exact Or.inr ⟨⟨e, rfl⟩, ⟨e, rfl⟩⟩
  | ok rel =>
    rcases hm : mkdirP s (o ++ rel.dropLast) with ⟨s₁, ex⟩
    cases ex with
    | error e =>
      have hcb := convertBody_mkdir_err cd f i o s s₁ rel e hrel hm
      rw [hcb] at hpers
      obtain ⟨g', e', hge⟩ := mkfold_sim_err (ancestors (o ++ rel.dropLast)) s s₁ g e hm hpers
      rw [hcb, convertBody_mkdir_err cd f i o g g' rel e' hrel hge]
      exact Or.inr ⟨⟨e, rfl⟩, ⟨e', rfl⟩⟩
    | ok u =>
      have hdirs1 : ∀ q ∈ ancestors (o ++ rel.dropLast), lookupE s₁ q = some Entry.dir :=
        mkfold_ok_dirs _ s s₁ hm
      have hev1 : Evol s s₁ := by
        have h := mkdirP_evol s (o ++ rel.dropLast)
        rwa [hm] at h
      rcases hlf : lookupE s f with _ | en
      · rw [hlf] at hsome; simp at hsome
      · cases en with
        | dir =>
          have hd1 : lookupE s₁ f = some Entry.dir := hev1.1.1 f hlf
          have hrd : readFileE s₁ f = .error "IsADirectoryError" := by
            unfold readFileE; rw [hd1]
          have hcb := convertBody_read_err cd f i o s s₁ rel u _ hrel hm hrd
          rw [hcb] at hpers
          obtain ⟨e', hge⟩ := convert_dir_err cd f i o g (hpers.1 f hd1)
          rw [hcb]
          exact Or.inr ⟨⟨_, rfl⟩, ⟨e', hge⟩⟩
        | file c =>
          have hf1 : lookupE s₁ f = some (Entry.file c) := by
            obtain ⟨c', hb, hc⟩ := hev1.1.2 f c hlf
            rw [hc hjpg] at hb
            exact hb
          have hrd : readFileE s₁ f = .ok c := by unfold readFileE; rw [hf1]
          cases hdec : cd.decode c with
          | error e =>
            have hcb := convertBody_decode_err cd f i o s s₁ rel u c e hrel hm hrd hdec
            rw [hcb] at hpers
            have hmg := g_mkdir_id s₁ g (o ++ rel.dropLast) hdirs1 hpers
            have hrdg := g_read s₁ g f c hf1 hpers hjpg
            rw [hcb, convertBody_decode_err cd f i o g g rel () c e hrel hmg hrdg hdec]
            exact Or.inr ⟨⟨e, rfl⟩, ⟨e, rfl⟩⟩
          | ok img =>
            cases hrgb : cd.toRGB img with
            | error e =>
              have hcb := convertBody_rgb_err cd f i o s s₁ rel u c e img hrel hm hrd hdec hrgb
              rw [hcb] at hpers
              have hmg := g_mkdir_id s₁ g (o ++ rel.dropLast) hdirs1 hpers
              have hrdg := g_read s₁ g f c hf1 hpers hjpg
              rw [hcb, convertBody_rgb_err cd f i o g g rel () c e img hrel hmg hrdg hdec hrgb]
              exact Or.inr ⟨⟨e, rfl⟩, ⟨e, rfl⟩⟩
            | ok rgb =>
              cases henc : cd.encodeJPEG rgb with
              | error e =>
                have hcb := convertBody_enc_err cd f i o s s₁ rel u c e img rgb
                  hrel hm hrd hdec hrgb henc
                rw [hcb] at hpers
                have hmg := g_mkdir_id s₁ g (o ++ rel.dropLast) hdirs1 hpers
                have hrdg := g_read s₁ g f c hf1 hpers hjpg
                rw [hcb, convertBody_enc_err cd f i o g g rel () c e img rgb
                  hrel hmg hrdg hdec hrgb henc]
                exact Or.inr ⟨⟨e, rfl⟩, ⟨e, rfl⟩⟩
              | ok outB =>
                rcases hw : writeFile s₁ (o ++ rel.dropLast ++ [pystem (fname f) ++ ".jpg"])
                    outB with ⟨s₂, ex₂⟩
                cases ex₂ with
                | error e =>
                  have hcb := convertBody_write_err cd f i o s s₁ s₂ rel u c e outB img rgb
                    hrel hm hrd hdec hrgb henc hw
                  rw [hcb] at hpers
                  obtain ⟨hs2, hcause⟩ := writeFile_error s₁ _ outB s₂ e hw
                  rw [hs2] at hpers
                  have hmg := g_mkdir_id s₁ g (o ++ rel.dropLast) hdirs1 hpers
                  have hrdg := g_read s₁ g f c hf1 hpers hjpg
                  have htd : isDirB s₁
                      ((o ++ rel.dropLast ++ [pystem (fname f) ++ ".jpg"]).dropLast) = true := by
                    rw [dropLast_concat']
                    exact target_isDirB s₁ (o ++ rel.dropLast) hdirs1
                  rcases hcause with hdir | hpar
                  · have hjpd : lookupE s₁ (o ++ rel.dropLast ++ [pystem (fname f) ++ ".jpg"]) =
                        some Entry.dir :=
                      lookup_dir_of_isDirB s₁ _ (concat_ne_nil _ _) hdir
                    have hjpdg := hpers.1 _ hjpd
                    have hwg : writeFile g (o ++ rel.dropLast ++ [pystem (fname f) ++ ".jpg"])
                        outB = (g, .error "IsADirectoryError") := by
                      unfold writeFile
                      rw [isDirB_of_lookup_dir g _ hjpdg]
                      simp
                    rw [hcb, convertBody_write_err cd f i o g g g rel () c _ outB img rgb
                      hrel hmg hrdg hdec hrgb henc hwg]
                    exact Or.inr ⟨⟨e, rfl⟩, ⟨_, rfl⟩⟩
                  · rw [htd] at hpar; cases hpar
                | ok u2 =>
                  have hcb := convertBody_write_ok cd f i o s s₁ s₂ rel u u2 c outB img rgb
                    hrel hm hrd hdec hrgb henc hw
                  rw [hcb] at hpers
                  obtain ⟨hs2eq, hnd, -⟩ := writeFile_ok s₁ _ outB s₂ u2 hw
                  have hp1 : Persist s₁ g := by
                    have hwe : Evol s₁ s₂ := by
                      have h := writeFile_evol s₁
                        (o ++ rel.dropLast ++ [pystem (fname f) ++ ".jpg"]) outB
                        (jpgEnd_concat _ _)
                      rwa [hw] at h
                    exact persist_trans hwe.1 hpers
                  have hmg := g_mkdir_id s₁ g (o ++ rel.dropLast) hdirs1 hp1
                  have hrdg := g_read s₁ g f c hf1 hp1 hjpg
                  have hjp2 : lookupE s₂ (o ++ rel.dropLast ++ [pystem (fname f) ++ ".jpg"]) =
                      some (Entry.file outB) := by
                    rw [hs2eq]
                    exact lookup_set_self s₁ _ (Entry.file outB)
                  obtain ⟨c', hjg, -⟩ := hpers.2 _ outB hjp2
                  have hgnd : isDirB g (o ++ rel.dropLast ++ [pystem (fname f) ++ ".jpg"]) =
                      false := isDirB_false_of_file g _ c' (concat_ne_nil _ _) hjg
                  have hgtd : isDirB g
                      ((o ++ rel.dropLast ++ [pystem (fname f) ++ ".jpg"]).dropLast) = true := by
                    rw [dropLast_concat']
                    rcases ht : (o ++ rel.dropLast) with _ | ⟨x, xs⟩
                    · rfl
                    · rw [← ht]
                      apply isDirB_of_lookup_dir g _
                      apply hp1.1
                      exact hdirs1 _ (ht ▸ self_mem_ancestors (o ++ rel.dropLast)
                        (by rw [ht]; simp))
                  have hwg : writeFile g (o ++ rel.dropLast ++ [pystem (fname f) ++ ".jpg"])
                      outB = (setEntry g (o ++ rel.dropLast ++ [pystem (fname f) ++ ".jpg"])
                        (Entry.file outB), .ok ()) := by
                    unfold writeFile
                    rw [hgnd, hgtd]
                    simp
                  rw [hcb, convertBody_write_ok cd f i o g g
                    (setEntry g (o ++ rel.dropLast ++ [pystem (fname f) ++ ".jpg"])
                      (Entry.file outB)) rel () () c outB img rgb
                    hrel hmg hrdg hdec hrgb henc hwg]
                  exact Or.inl ⟨_, rfl, rfl⟩

end HeicC

namespace HeicC

theorem runAll_sim : ∀ (files : List FsPath) (cd : Codec) (i o : FsPath) (s g : FS),
    Persist (runAll cd i o s files).1 g →
    (∀ f ∈ files, (lookupE s f).isSome ∧ jpgEnd f = false) →
    (runAll cd i o g files).2.1 = (runAll cd i o s files).2.1 ∧
    (runAll cd i o g files).2.2 = (runAll cd i o s files).2.2
  | [], cd, i, o, s, g, _, _ => ⟨rfl, rfl⟩
  | f :: rest, cd, i, o, s, g, hpers, hfiles => by
    have hf := hfiles f (List.mem_cons_self _ _)
    have hS : Persist (convertBody cd f i o s).1
        (runAll cd i o (convertBody cd f i o s).1 rest).1 :=
      (runAll_evol cd i o rest (convertBody cd f i o s).1).1
    have hpers' : Persist (runAll cd i o (convertBody cd f i o s).1 rest).1 g := by
      have h := hpers
      rw [runAll_cons] at h
      exact h
    have hpc : Persist (convertBody cd f i o s).1 g := persist_trans hS hpers'
    have hsim := convert_sim cd f i o s g hpc hf.1 hf.2
    have hps1 : Persist s (convertBody cd f i o s).1 := (convertBody_evol cd f i o s).1
    have hrest : ∀ f' ∈ rest, (lookupE (convertBody cd f i o s).1 f').isSome ∧
        jpgEnd f' = false := by
      intro f' hf'
      have h := hfiles f' (List.mem_cons_of_mem _ hf')
      exact ⟨persist_isSome hps1 f' h.1, h.2⟩
    have hrecp : Persist (runAll cd i o (convertBody cd f i o s).1 rest).1
        (convertBody cd f i o g).1 :=
      persist_trans hpers' (convertBody_evol cd f i o g).1
    have hrec := runAll_sim rest cd i o (convertBody cd f i o s).1
      (convertBody cd f i o g).1 hrecp hrest
    rcases hsim with ⟨p, hsp, hgp⟩ | ⟨⟨e, hse⟩, ⟨e', hge⟩⟩
    · have ho_s := convert_outcome_ok cd f i o s p hsp
      have ho_g := convert_outcome_ok cd f i o g p hgp
      constructor
      · simp only [runAll_cons]
        rw [ho_s, ho_g, hrec.1]
      · simp only [runAll_cons]
        rw [hsp, hgp, hrec.2]
    · have ho_s := convert_outcome_err cd f i o s e hse
      have ho_g := convert_outcome_err cd f i o g e' hge
      constructor
      · simp only [runAll_cons]
        rw [ho_s, ho_g, hrec.1]
      · simp only [runAll_cons]
        rw [hse, hge, hrec.2]

end HeicC

namespace HeicC

/-! ### Enumeration through the key list -/

theorem filterMap_if_keys (g : FsPath → Bool) : ∀ (l : FS),
    l.filterMap (fun pe => if g pe.1 then some pe.1 else none) = (l.map (·.1)).filter g
  | [] => rfl
  | pe :: rest => by
    rw [List.filterMap_cons, List.map_cons, List.filter_cons]
    by_cases hc : g pe.1
    · rw [if_pos hc, if_pos hc]
      simp only []
      rw [filterMap_if_keys g rest]
    · rw [if_neg hc, if_neg hc]
      simp only []
      rw [filterMap_if_keys g rest]

theorem enumerate_keys (fs : FS) (root : FsPath) :
    enumerate fs root = (keysOf fs).filter
      (fun p => isPre root p && !(decide (p = root)) && heicGlobMatch (fname p)) :=
  filterMap_if_keys (fun p => isPre root p && !(decide (p = root)) && heicGlobMatch (fname p)) fs

theorem mem_enumerate (fs : FS) (root p : FsPath) (h : p ∈ enumerate fs root) :
    (lookupE fs p).isSome ∧ heicGlobMatch (fname p) = true := by
  rw [enumerate_keys] at h
  have h1 := List.mem_filter.mp h
  refine ⟨(mem_keys_iff p fs).mp h1.1, ?_⟩
  have h2 := h1.2
  simp only [Bool.and_eq_true] at h2
  exact h2.2

theorem enumerate_of_keys_append (fsN fs₁ : FS) (root : FsPath) (pre : List FsPath)
    (hk : keysOf fsN = pre ++ keysOf fs₁) :
    enumerate fsN root =
      pre.filter (fun p => isPre root p && !(decide (p = root)) && heicGlobMatch (fname p)) ++
      enumerate fs₁ root := by
  rw [enumerate_keys, enumerate_keys, hk, List.filter_append]

/-- Every freshly created entry whose name matches the glob is a directory:
written files end in `.jpg`, which never matches. -/
theorem new_matching_dirs (fs₁ fsN : FS) (hev : Evol fs₁ fsN) (pre : List FsPath)
    (hk : keysOf fsN = pre ++ keysOf fs₁) (hfresh : ∀ q ∈ pre, lookupE fs₁ q = none) :
    ∀ f ∈ pre, heicGlobMatch (fname f) = true → lookupE fsN f = some Entry.dir := by
  intro f hf hg
  have hmem : f ∈ keysOf fsN := by rw [hk]; exact List.mem_append_left _ hf
  have hsome := (mem_keys_iff f fsN).mp hmem
  rcases hl : lookupE fsN f with _ | en
  · rw [hl] at hsome; simp at hsome
  · cases en with
    | dir => rfl
    | file c =>
      have hjpg := hev.2.2 f c (hfresh f hf) hl
      rw [glob_not_jpgEnd f hg] at hjpg
      cases hjpg

/-! ### Conversions of directories write nothing -/

theorem runAll_dirs (cd : Codec) (i o : FsPath) : ∀ (files : List FsPath) (base g : FS),
    Persist base g → (∀ f ∈ files, lookupE base f = some Entry.dir) →
    (runAll cd i o g files).2.2 = [] ∧ Persist base (runAll cd i o g files).1
  | [], _, g, hp, _ => ⟨rfl, hp⟩
  | f :: rest, base, g, hp, hd => by
    have hgf : lookupE g f = some Entry.dir := hp.1 f (hd f (List.mem_cons_self _ _))
    obtain ⟨e, he⟩ := convert_dir_err cd f i o g hgf
    have hp1 : Persist base (convertBody cd f i o g).1 :=
      persist_trans hp (convertBody_evol cd f i o g).1
    have ih := runAll_dirs cd i o rest base (convertBody cd f i o g).1 hp1
      (fun q hq => hd q (List.mem_cons_of_mem _ hq))
    constructor
    · simp only [runAll_cons]
      rw [he]
      simpa using ih.1
    · simp only [runAll_cons]
      exact ih.2

/-! ### Splitting a run over an appended file list -/

theorem runAll_append (cd : Codec) (i o : FsPath) : ∀ (A B : List FsPath) (s : FS),
    runAll cd i o s (A ++ B) =
      ((runAll cd i o (runAll cd i o s A).1 B).1,
       (runAll cd i o s A).2.1 ++ (runAll cd i o (runAll cd i o s A).1 B).2.1,
       (runAll cd i o s A).2.2 ++ (runAll cd i o (runAll cd i o s A).1 B).2.2)
  | [], B, s => by
    rcases h : runAll cd i o s B with ⟨a, bc⟩
    simp [runAll, h]
  | f :: A, B, s => by
    simp only [List.cons_append, runAll_cons,
      runAll_append cd i o A B (convertBody cd f i o s).1]
    simp [List.append_assoc]

/-! ### Which paths become files during a run -/

theorem convert_written_isFile (cd : Codec) (f i o : FsPath) (s fs' : FS) (p : FsPath)
    (h : convertBody cd f i o s = (fs', .ok p)) : isFileB fs' p = true := by
  obtain ⟨rel, fs₁, bytes, img, rgb, outB, -, -, -, -, -, -, hw, hp⟩ :=
    convertBody_ok_inv cd f i o s fs' p h
  obtain ⟨hfs', -, -⟩ := writeFile_ok fs₁ _ outB fs' () hw
  subst hp
  rw [hfs']
  unfold isFileB
  rw [lookup_set_self]

theorem runAll_written_isFile (cd : Codec) (i o : FsPath) :
    ∀ (files : List FsPath) (s : FS) (p : FsPath),
      p ∈ (runAll cd i o s files).2.2 → isFileB (runAll cd i o s files).1 p = true
  | [], s, p, h => by simp [runAll] at h
  | f :: rest, s, p, h => by
    rcases hfull : convertBody cd f i o s with ⟨s', r⟩
    simp only [runAll_cons, hfull] at h ⊢
    rcases List.mem_append.mp h with hw | hwr
    · cases r with
      | error e => simp at hw
      | ok q =>
        simp at hw
        subst hw
        have hf1 : isFileB s' p = true := convert_written_isFile cd f i o s s' p hfull
        exact persist_isFileB (runAll_evol cd i o rest s').1 p hf1
    · exact runAll_written_isFile cd i o rest s' p hwr

theorem mkdir_isFileB_rev (s : FS) (t : FsPath) (fs₁ : FS) (ex : Except String Unit)
    (hm : mkdirP s t = (fs₁, ex)) (p : FsPath) (hf : isFileB fs₁ p = true) :
    isFileB s p = true := by
  have hfr := mkfold_frame (ancestors t) s (.ok ()) p
  rw [show (ancestors t).foldl mkdirStep (s, .ok ()) = mkdirP s t from rfl, hm] at hfr
  rcases hfr with heq | ⟨h1, h2, h3⟩
  · unfold isFileB at hf ⊢
    rw [heq] at hf
    exact hf
  · unfold isFileB at hf
    rw [h2] at hf
    simp at hf

theorem convert_files_new (cd : Codec) (f i o : FsPath) (s fs' : FS)
    (r : Except String FsPath) (p : FsPath)
    (h : convertBody cd f i o s = (fs', r)) (hf : isFileB fs' p = true) :
    isFileB s p = true ∨ r = .ok p := by
  cases hrel : relative_to f i with
  | error e =>
    rw [convertBody_rel_err cd f i o s e hrel] at h
    injection h with h1 h2
    subst h1
    exact Or.inl hf
  | ok rel =>
    rcases hm : mkdirP s (o ++ rel.dropLast) with ⟨s₁, ex⟩
    cases ex with
    | error e =>
      rw [convertBody_mkdir_err cd f i o s s₁ rel e hrel hm] at h
      injection h with h1 h2
      subst h1
      exact Or.inl (mkdir_isFileB_rev s _ s₁ _ hm p hf)
    | ok u =>
      cases hrd : readFileE s₁ f with
      | error e =>
        rw [convertBody_read_err cd f i o s s₁ rel u e hrel hm hrd] at h
        injection h with h1 h2
        subst h1
        exact Or.inl (mkdir_isFileB_rev s _ s₁ _ hm p hf)
      | ok bytes =>
        cases hdec : cd.decode bytes with
        | error e =>
          rw [convertBody_decode_err cd f i o s s₁ rel u bytes e hrel hm hrd hdec] at h
          injection h with h1 h2
          subst h1
          exact Or.inl (mkdir_isFileB_rev s _ s₁ _ hm p hf)
        | ok img =>
          cases hrgb : cd.toRGB img with
          | error e =>
            rw [convertBody_rgb_err cd f i o s s₁ rel u bytes e img hrel hm hrd hdec hrgb] at h
            injection h with h1 h2
            subst h1
            exact Or.inl (mkdir_isFileB_rev s _ s₁ _ hm p hf)
          | ok rgb =>
            cases henc : cd.encodeJPEG rgb with
            | error e =>
              rw [convertBody_enc_err cd f i o s s₁ rel u bytes e img rgb
                hrel hm hrd hdec hrgb henc] at h
              injection h with h1 h2
              subst h1
              exact Or.inl (mkdir_isFileB_rev s _ s₁ _ hm p hf)
            | ok outB =>
              rcases hw : writeFile s₁ (o ++ rel.dropLast ++ [pystem (fname f) ++ ".jpg"])
                  outB with ⟨s₂, ex₂⟩
              cases ex₂ with
              | error e =>
                rw [convertBody_write_err cd f i o s s₁ s₂ rel u bytes e outB img rgb
                  hrel hm hrd hdec hrgb henc hw] at h
                obtain ⟨hs2, -⟩ := writeFile_error s₁ _ outB s₂ e hw
                injection h with h1 h2
                subst h1
                rw [hs2] at hf
                exact Or.inl (mkdir_isFileB_rev s _ s₁ _ hm p hf)
              | ok u2 =>
                rw [convertBody_write_ok cd f i o s s₁ s₂ rel u u2 bytes outB img rgb
                  hrel hm hrd hdec hrgb henc hw] at h
                obtain ⟨hs2, -, -⟩ := writeFile_ok s₁ _ outB s₂ u2 hw
                injection h with h1 h2
                subst h1
                by_cases hpj : p = o ++ rel.dropLast ++ [pystem (fname f) ++ ".jpg"]
                · exact Or.inr (by rw [← h2, hpj])
                · rw [hs2] at hf
                  unfold isFileB at hf
                  rw [lookup_set_ne s₁ _ p (Entry.file outB) hpj] at hf
                  exact Or.inl (mkdir_isFileB_rev s _ s₁ _ hm p hf)

theorem runAll_files_subset (cd : Codec) (i o : FsPath) :
    ∀ (files : List FsPath) (s : FS) (p : FsPath),
      isFileB (runAll cd i o s files).1 p = true →
      isFileB s p = true ∨ p ∈ (runAll cd i o s files).2.2
  | [], _, _, h => Or.inl h
  | f :: rest, s, p, h => by
    rcases hfull : convertBody cd f i o s with ⟨s', r⟩
    simp only [runAll_cons, hfull] at h ⊢
    rcases runAll_files_subset cd i o rest s' p h with h1 | h1
    · rcases convert_files_new cd f i o s s' r p hfull h1 with h2 | h2
      · exact Or.inl h2
      · refine Or.inr (List.mem_append_left _ ?_)
        rw [h2]
        simp
    · exact Or.inr (List.mem_append_right _ h1)

end HeicC

namespace HeicC

/-! ### Equation lemmas for the batch -/

/-- The completed-run output assembled from a dispatch. -/
def batchOf (cd : Codec) (i odir : FsPath) (fs₁ : FS) (files : List FsPath) : BatchOut :=
  let r := runAll cd i odir fs₁ files
  let converted := (r.2.1.filter (fun ob => ob.1)).length
  ⟨r.1, .completed converted (r.2.1.length - converted), r.2.1, r.2.2⟩

theorem batchOf_fs (cd : Codec) (i odir : FsPath) (fs₁ : FS) (files : List FsPath) :
    (batchOf cd i odir fs₁ files).fs = (runAll cd i odir fs₁ files).1 := rfl

theorem batchOf_written (cd : Codec) (i odir : FsPath) (fs₁ : FS) (files : List FsPath) :
    (batchOf cd i odir fs₁ files).written = (runAll cd i odir fs₁ files).2.2 := rfl

theorem isEmpty_false_of_ne_nil (l : List FsPath) (h : l ≠ []) : l.isEmpty = false := by
  cases l with
  | nil => exact absurd rfl h
  | cons x xs => rfl

theorem batch_notFound_eq (cd : Codec) (cpu : Option Nat) (fs : FS) (i : FsPath)
    (oname : String) (h : (lookupE fs i).isSome = false) :
    convert_heic_to_jpeg cd cpu fs i oname = .ok ⟨fs, .notFound, [], []⟩ := by
  unfold convert_heic_to_jpeg
  simp [h]

theorem batch_mkdirErr_eq (cd : Codec) (cpu : Option Nat) (fs fs' : FS) (i : FsPath)
    (oname e : String) (hin : (lookupE fs i).isSome = true)
    (hm : mkdirP fs (i ++ [oname]) = (fs', .error e)) :
    convert_heic_to_jpeg cd cpu fs i oname = .error e := by
  unfold convert_heic_to_jpeg
  simp only [hin, if_true]
  rw [hm]

theorem batch_empty_eq (cd : Codec) (cpu : Option Nat) (fs fs₁ : FS) (i : FsPath)
    (oname : String) (u : Unit) (hin : (lookupE fs i).isSome = true)
    (hm : mkdirP fs (i ++ [oname]) = (fs₁, .ok u))
    (hemp : (enumerate fs₁ i).isEmpty = true) :
    convert_heic_to_jpeg cd cpu fs i oname = .ok ⟨fs₁, .empty, [], []⟩ := by
  unfold convert_heic_to_jpeg
  simp only [hin, if_true]
  rw [hm]
  simp only []
  rw [hemp]
  rfl

theorem batch_run_eq (cd : Codec) (cpu : Option Nat) (fs fs₁ : FS) (i : FsPath)
    (oname : String) (u : Unit) (hin : (lookupE fs i).isSome = true)
    (hm : mkdirP fs (i ++ [oname]) = (fs₁, .ok u))
    (hemp : (enumerate fs₁ i).isEmpty = false) :
    convert_heic_to_jpeg cd cpu fs i oname =
      .ok (batchOf cd i (i ++ [oname]) fs₁ (enumerate fs₁ i)) := by
  unfold convert_heic_to_jpeg batchOf dispatch
  simp only [hin, if_true]
  rw [hm]
  simp only []
  rw [hemp]
  rfl

end HeicC

namespace HeicC

/-- C9: running the batch a second time on the same input directory with the
same output folder name produces exactly the same list of written output
file paths as the first run, and the set of file paths on disk is unchanged
by the second run — outputs are overwritten in place, never duplicated. -/
theorem c9_second_run_same_outputs (cd : Codec) (cpu : Option Nat) (fs : FS) (i : FsPath)
    (oname : String) (b₁ b₂ : BatchOut)
    (h1 : convert_heic_to_jpeg cd cpu fs i oname = .ok b₁)
    (h2 : convert_heic_to_jpeg cd cpu b₁.fs i oname = .ok b₂) :
    b₂.written = b₁.written ∧ ∀ p, isFileB b₂.fs p = isFileB b₁.fs p := by
  by_cases hin : (lookupE fs i).isSome = true
  case neg =>
    have hin' : (lookupE fs i).isSome = false := by
      cases h : (lookupE fs i).isSome
      · rfl
      · exact absurd h hin
    rw [batch_notFound_eq cd cpu fs i oname hin'] at h1
    injection h1 with h1'
    subst h1'
    rw [show (⟨fs, BatchResult.notFound, [], []⟩ : BatchOut).fs = fs from rfl] at h2
    rw [batch_notFound_eq cd cpu fs i oname hin'] at h2
    injection h2 with h2'
    subst h2'
    exact ⟨rfl, fun p => rfl⟩
  case pos =>
    rcases hm : mkdirP fs (i ++ [oname]) with ⟨fs₁, ex⟩
    cases ex with
    | error e =>
      rw [batch_mkdirErr_eq cd cpu fs fs₁ i oname e hin hm] at h1
      simp at h1
    | ok u =>
      have hdirs : ∀ q ∈ ancestors (i ++ [oname]), lookupE fs₁ q = some Entry.dir :=
        mkfold_ok_dirs _ fs fs₁ hm
      have hev01 : Evol fs fs₁ := by
        have h := mkdirP_evol fs (i ++ [oname])
        rwa [hm] at h
      have hin1 : (lookupE fs₁ i).isSome = true := persist_isSome hev01.1 i hin
      cases hemp : (enumerate fs₁ i).isEmpty with
      | true =>
        rw [batch_empty_eq cd cpu fs fs₁ i oname u hin hm hemp] at h1
        injection h1 with h1'
        subst h1'
        rw [show (⟨fs₁, BatchResult.empty, [], []⟩ : BatchOut).fs = fs₁ from rfl] at h2
        have hm2 : mkdirP fs₁ (i ++ [oname]) = (fs₁, .ok ()) := mkfold_id _ fs₁ hdirs
        rw [batch_empty_eq cd cpu fs₁ fs₁ i oname () hin1 hm2 hemp] at h2
        injection h2 with h2'
        subst h2'
        exact ⟨rfl, fun p => rfl⟩
      | false =>
        rw [batch_run_eq cd cpu fs fs₁ i oname u hin hm hemp] at h1
        injection h1 with h1'
        subst h1'
        rcases hrun1 : runAll cd i (i ++ [oname]) fs₁ (enumerate fs₁ i) with ⟨fsN, outs1, wr1⟩
        have hevN : Evol fs₁ fsN := by
          have h := runAll_evol cd i (i ++ [oname]) (enumerate fs₁ i) fs₁
          rwa [hrun1] at h
        obtain ⟨pre, hk, hfresh⟩ := hevN.2.1
        have hdirsN : ∀ q ∈ ancestors (i ++ [oname]), lookupE fsN q = some Entry.dir :=
          fun q hq => hevN.1.1 q (hdirs q hq)
        have hinN : (lookupE fsN i).isSome = true := persist_isSome hevN.1 i hin1
        have hmN : mkdirP fsN (i ++ [oname]) = (fsN, .ok ()) := mkfold_id _ fsN hdirsN
        have henum : enumerate fsN i =
            pre.filter (fun p => isPre i p && !(decide (p = i)) && heicGlobMatch (fname p)) ++
            enumerate fs₁ i :=
          enumerate_of_keys_append fsN fs₁ i pre hk
        have hEnil : enumerate fs₁ i ≠ [] := by
          intro hc
          rw [hc] at hemp
          simp at hemp
        have hempN : (enumerate fsN i).isEmpty = false := by
          apply isEmpty_false_of_ne_nil
          rw [henum]
          intro hc
          exact hEnil (List.append_eq_nil.mp hc).2
        rw [batchOf_fs, hrun1] at h2
        simp only [] at h2
        rw [batch_run_eq cd cpu fsN fsN i oname () hinN hmN hempN] at h2
        injection h2 with h2'
        subst h2'
        have hnewdirs : ∀ f ∈ pre.filter
            (fun p => isPre i p && !(decide (p = i)) && heicGlobMatch (fname p)),
            lookupE fsN f = some Entry.dir := by
          intro f hf
          have hmf := List.mem_filter.mp hf
          have hglob : heicGlobMatch (fname f) = true := by
            have h := hmf.2
            simp only [Bool.and_eq_true] at h
            exact h.2
          exact new_matching_dirs fs₁ fsN hevN pre hk hfresh f hmf.1 hglob
        have hphase1 := runAll_dirs cd i (i ++ [oname])
          (pre.filter (fun p => isPre i p && !(decide (p = i)) && heicGlobMatch (fname p)))
          fsN fsN (persist_refl fsN) hnewdirs
        rcases hrun2a : runAll cd i (i ++ [oname]) fsN
            (pre.filter (fun p => isPre i p && !(decide (p = i)) && heicGlobMatch (fname p)))
          with ⟨g₀, outsA, wrA⟩
        have hwrA : wrA = [] := by
          have h := hphase1.1
          rw [hrun2a] at h
          exact h
        have hg₀pers : Persist fsN g₀ := by
          have h := hphase1.2
          rw [hrun2a] at h
          exact h
        have hfilesE : ∀ f ∈ enumerate fs₁ i, (lookupE fs₁ f).isSome ∧ jpgEnd f = false := by
          intro f hf
          have hme := mem_enumerate fs₁ i f hf
          exact ⟨hme.1, glob_not_jpgEnd f hme.2⟩
        have hsim := runAll_sim (enumerate fs₁ i) cd i (i ++ [oname]) fs₁ g₀
          (by rw [hrun1]; exact hg₀pers) hfilesE
        rcases hrun2b : runAll cd i (i ++ [oname]) g₀ (enumerate fs₁ i) with ⟨G, outsB, wrB⟩
        have hwrB : wrB = wr1 := by
          have h := hsim.2
          rw [hrun2b, hrun1] at h
          exact h
        have hfseq : (runAll cd i (i ++ [oname]) fsN (enumerate fsN i)) =
            (G, outsA ++ outsB, wrA ++ wrB) := by
          rw [henum, runAll_append cd i (i ++ [oname]) _ _ fsN, hrun2a]
          simp only []
          rw [hrun2b]
        constructor
        · rw [batchOf_written, batchOf_written, hrun1, hfseq]
          simp only []
          rw [hwrA, hwrB]
          simp
        · intro p
          rw [batchOf_fs, batchOf_fs, hrun1, hfseq]
          simp only []
          have hGev : Persist g₀ G := by
            have h := (runAll_evol cd i (i ++ [oname]) (enumerate fs₁ i) g₀).1
            rwa [hrun2b] at h
          have hsup : isFileB fsN p = true → isFileB G p = true :=
            fun h => persist_isFileB hGev p (persist_isFileB hg₀pers p h)
          have hsub : isFileB G p = true → isFileB fsN p = true := by
            intro hG
            have hG' : isFileB (runAll cd i (i ++ [oname]) g₀ (enumerate fs₁ i)).1 p = true := by
              rw [hrun2b]
              exact hG
            rcases runAll_files_subset cd i (i ++ [oname]) (enumerate fs₁ i) g₀ p hG'
              with h | h
            · have hg0' : isFileB (runAll cd i (i ++ [oname]) fsN
                  (pre.filter (fun p => isPre i p && !(decide (p = i)) &&
                    heicGlobMatch (fname p)))).1 p = true := by
                rw [hrun2a]
                exact h
              rcases runAll_files_subset cd i (i ++ [oname]) _ fsN p hg0' with h2 | h2
              · exact h2
              · rw [hrun2a] at h2
                rw [hwrA] at h2
                simp at h2
            · rw [hrun2b, hwrB] at h
              have hfile := runAll_written_isFile cd i (i ++ [oname]) (enumerate fs₁ i) fs₁ p
                (by rw [hrun1]; exact h)
              rw [hrun1] at hfile
              exact hfile
          cases hG : isFileB G p
          · cases hN : isFileB fsN p
            · rfl
            · exact absurd (hsup hN) (by simp [hG])
          · rw [hsub hG]

end HeicC

namespace HeicC

/-- The batch output of the first (and second) run on the one-file tree. -/
def b1C : BatchOut :=
  ⟨[(["in", "out", "a.jpg"], Entry.file "JPG:x"), (["in", "out"], Entry.dir),
    (["in"], Entry.dir), (["in", "a.heic"], Entry.file "x")],
   .completed 1 0, [(true, "a.heic")], [["in", "out", "a.jpg"]]⟩

/-- Witness for C9: a concrete double run on the one-file tree writes the
same output path list both times. -/
theorem c9_second_run_same_outputs_witness :
    convert_heic_to_jpeg codOk (some 2) fsOneHeic ["in"] "out" = .ok b1C ∧
    b1C.written = b1C.written :=
  ⟨by decide,
   (c9_second_run_same_outputs codOk (some 2) fsOneHeic ["in"] "out" b1C b1C
     (by decide) (by decide)).1⟩

end HeicC
